import Mathlib

/-!
# Synchronisation primitives (kern/thread/synch.c) and the air-balloon
# scenario (kern/synchprobs/airballoon.c)

The first half of the file embeds the code: the semaphore, the lock built on
it, the condition variable, a thread-level step relation over one lock and one
condition variable, and the step relation of the air-balloon threads.  The
second half states and proves the properties.
-/

namespace OS161

/-! ## Results of a kernel call -/

/-- Result of running one blocking statement in a given state: it completes
with a new state, it cannot complete yet (the caller sleeps on a wait channel or
spins and retries later), or a KASSERT fails and the kernel halts. -/
inductive Outcome (α : Type) where
  | done (a : α)
  | blocked
  | panic
  deriving DecidableEq, Repr

/-- Sequencing of statements: the continuation runs only when the first
statement completes. -/
def Outcome.andThen {α β : Type} (o : Outcome α) (f : α → Outcome β) : Outcome β :=
  match o with
  | .done a => f a
  | .blocked => .blocked
  | .panic => .panic

/-- Thread identity: the value of curthread. -/
abbrev Tid := Nat

/-! ## Semaphore (synch.c lines 47-135) -/

/-- Modelled from the spec: struct semaphore is declared in synch.h, which is
not among the sources; its count is a non-negative machine integer (sem_create
takes an unsigned initial_count), taken here as a 32-bit unsigned. -/
def UINT_MOD : Nat := 2 ^ 32

/-- Modelled from the spec: the count field of struct semaphore.  The name,
the spinlock and the wait channel of the structure only serve to make P and V
atomic and to park sleepers; they are represented by the blocked outcome. -/
structure Semaphore where
  sem_count : Nat
  deriving DecidableEq, Repr

/-- Successful sem_create: sem_count = initial_count. -/
def sem_create (initial_count : Nat) : Semaphore :=
  { sem_count := initial_count }

/-- One pass of P under sem_lock: while the count is 0 the caller sleeps on
sem_wchan; otherwise KASSERT(sem_count > 0) is checked and the unsigned count is
decremented. -/
def P (sem : Semaphore) : Outcome Semaphore :=
  if sem.sem_count = 0 then .blocked
  else if 0 < sem.sem_count then
    .done { sem_count := (sem.sem_count + (UINT_MOD - 1)) % UINT_MOD }
  else .panic

/-- V under sem_lock: the unsigned count is incremented, then
KASSERT(sem_count > 0) is checked (it fails when the increment wraps to 0). -/
def V (sem : Semaphore) : Outcome Semaphore :=
  let c := (sem.sem_count + 1) % UINT_MOD
  if 0 < c then .done { sem_count := c } else .panic

/-- A semaphore together with the number of P calls completed and V calls
performed on it so far. -/
structure SemHistory where
  sem : Semaphore
  completedP : Nat
  performedV : Nat

/-- States reachable from sem_create c0 by interleaved P and V calls: a P call
completes only when P returns, a V call only when its assertion holds. -/
inductive SemReach (c0 : Nat) : SemHistory → Prop where
  | init : SemReach c0 ⟨sem_create c0, 0, 0⟩
  | down {h : SemHistory} {sem' : Semaphore} :
      SemReach c0 h → P h.sem = .done sem' →
      SemReach c0 ⟨sem', h.completedP + 1, h.performedV⟩
  | up {h : SemHistory} {sem' : Semaphore} :
      SemReach c0 h → V h.sem = .done sem' →
      SemReach c0 ⟨sem', h.completedP, h.performedV + 1⟩

/-! ## Lock (synch.c lines 141-219) -/

/-- Modelled from the spec: struct lock is declared in synch.h; it holds the
semaphore lk_sem and the holder lk_holder (NULL is none). -/
structure Lock where
  lk_sem : Semaphore
  lk_holder : Option Tid
  deriving DecidableEq, Repr

/-- Successful lock_create: a semaphore of initial value 1 and no holder. -/
def lock_create : Lock :=
  { lk_sem := sem_create 1, lk_holder := none }

/-- First statement of lock_acquire (line 194): P(lock->lk_sem). -/
def lock_acquire_P (lock : Lock) : Outcome Lock :=
  (P lock.lk_sem).andThen fun sem => .done { lock with lk_sem := sem }

/-- Second statement of lock_acquire (line 197): lock->lk_holder = curthread. -/
def lock_acquire_set (cur : Tid) (lock : Lock) : Lock :=
  { lock with lk_holder := some cur }

/-- The whole of lock_acquire run without interruption. -/
def lock_acquire (cur : Tid) (lock : Lock) : Outcome Lock :=
  (lock_acquire_P lock).andThen fun l => .done (lock_acquire_set cur l)

/-- First statement of lock_release (line 206): V(lock->lk_sem). -/
def lock_release_V (lock : Lock) : Outcome Lock :=
  (V lock.lk_sem).andThen fun sem => .done { lock with lk_sem := sem }

/-- Second statement of lock_release (line 209): lock->lk_holder = NULL. -/
def lock_release_clear (lock : Lock) : Lock :=
  { lock with lk_holder := none }

/-- The whole of lock_release run without interruption.  The caller cur is not
consulted: the only assertion of the function is lock != NULL. -/
def lock_release (_cur : Tid) (lock : Lock) : Outcome Lock :=
  (lock_release_V lock).andThen fun l => .done (lock_release_clear l)

/-- The lock states that lock_release goes through, one after each of its two
statements, in program order. -/
def lock_release_states (lock : Lock) : List Lock :=
  match lock_release_V lock with
  | .done l => [l, lock_release_clear l]
  | _ => []

/-- The body of lock_do_i_hold: curthread == lock->lk_holder. -/
def lock_do_i_hold (cur : Tid) (lock : Lock) : Bool :=
  decide (lock.lk_holder = some cur)

/-! ## Condition variable (synch.c lines 226-314) -/

/-- Modelled from the spec: struct cv is declared in synch.h, the spinlock and
the wait channel in files that are not among the sources.  The spinlock is
represented by the thread that holds it, the wait channel by the threads
suspended on it. -/
structure Cv where
  cv_spinlock : Option Tid
  cv_wchan : List Tid
  deriving DecidableEq, Repr

/-- Successful cv_create: spinlock_init and an empty wait channel. -/
def cv_create : Cv :=
  { cv_spinlock := none, cv_wchan := [] }

/-- Modelled from the spec: spinlock_acquire busy-waits until the spin mutex is
free and then takes it. -/
def spinlock_acquire (cur : Tid) (cv : Cv) : Outcome Cv :=
  match cv.cv_spinlock with
  | none => .done { cv with cv_spinlock := some cur }
  | some _ => .blocked

/-- Modelled from the spec: spinlock_release frees the spin mutex. -/
def spinlock_release (cv : Cv) : Cv :=
  { cv with cv_spinlock := none }

/-- Modelled from the spec: the first half of wchan_sleep, which atomically
releases the held spin mutex and suspends the caller on the wait queue. -/
def wchan_sleep (cur : Tid) (cv : Cv) : Cv :=
  { cv_spinlock := none, cv_wchan := cv.cv_wchan ++ [cur] }

/-- Modelled from the spec: wchan_wakeone makes one suspended thread ready (none
when the queue is empty).  The spec leaves the wake-up order unspecified, so the
position of the thread woken is a parameter. -/
def wchan_wakeone (pick : Nat) (cv : Cv) : Option Tid × Cv :=
  match cv.cv_wchan with
  | [] => (none, cv)
  | u :: us =>
    let k := pick % (u :: us).length
    ((u :: us).get? k, { cv with cv_wchan := (u :: us).eraseIdx k })

/-- Modelled from the spec: wchan_wakeall makes every suspended thread ready. -/
def wchan_wakeall (cv : Cv) : List Tid × Cv :=
  (cv.cv_wchan, { cv with cv_wchan := [] })

/-! ## Threads over one lock and one condition variable

Each thread is inside one of the functions of synch.c or between two calls.  A
program point names the next statement the thread will execute. -/

/-- Program points of a thread that uses the lock and the condition variable. -/
inductive SPC where
  /-- between calls, lock_acquire not completed -/
  | idle
  /-- between calls, lock_acquire completed and lock_release not called -/
  | holding
  /-- lock_acquire, line 194 -/
  | acq_P
  /-- lock_acquire called again by the thread that already completed it, line 194 -/
  | reacq_P
  /-- lock_acquire, line 197 -/
  | acq_set
  /-- lock_release, line 206 -/
  | rel_V
  /-- lock_release, line 209 -/
  | rel_clear
  /-- cv_wait, line 281 -/
  | wait_spin
  /-- cv_wait, line 282, in lock_release at line 206 -/
  | wait_rel_V
  /-- cv_wait, line 282, in lock_release at line 209 -/
  | wait_rel_clear
  /-- cv_wait, line 285, calling wchan_sleep -/
  | wait_sleep
  /-- cv_wait, line 285, suspended inside wchan_sleep -/
  | wait_asleep
  /-- cv_wait, line 285, woken inside wchan_sleep and taking the spinlock back -/
  | wait_woken
  /-- cv_wait, line 288 -/
  | wait_unspin
  /-- cv_wait, line 289, in lock_acquire at line 194 -/
  | wait_acq_P
  /-- cv_wait, line 289, in lock_acquire at line 197 -/
  | wait_acq_set
  /-- cv_signal, line 299; the flag records whether the caller holds the lock -/
  | sig_spin (held : Bool)
  /-- cv_signal, line 300 -/
  | sig_wake (held : Bool)
  /-- cv_signal, line 301 -/
  | sig_unspin (held : Bool)
  /-- cv_broadcast, line 311 -/
  | bc_spin (held : Bool)
  /-- cv_broadcast, line 312 -/
  | bc_wake (held : Bool)
  /-- cv_broadcast, line 313 -/
  | bc_unspin (held : Bool)
  deriving DecidableEq, Repr

/-- The functions of synch.c a thread may call. -/
inductive Call where
  | lock_acquire
  | lock_release
  | cv_wait
  | cv_signal
  | cv_broadcast
  deriving DecidableEq, Repr

/-- One lock, one condition variable and the program point of every thread. -/
structure Synch where
  lock : Lock
  cv : Cv
  pc : Tid → SPC

/-- State after lock_create and cv_create, no thread inside a call. -/
def Synch.init : Synch :=
  { lock := lock_create, cv := cv_create, pc := fun _ => .idle }

/-- Thread t moves to program point p. -/
def Synch.goto (s : Synch) (t : Tid) (p : SPC) : Synch :=
  { s with pc := Function.update s.pc t p }

/-- The program point reached when a cv_signal or cv_broadcast call returns. -/
def SPC.back (held : Bool) : SPC :=
  if held then .holding else .idle

/-- Thread t runs the P of lock_acquire and continues at p. -/
def Synch.doP (s : Synch) (t : Tid) (p : SPC) : Option Synch :=
  match lock_acquire_P s.lock with
  | .done l => some ({ s with lock := l }.goto t p)
  | _ => none

/-- Thread t runs the V of lock_release and continues at p. -/
def Synch.doV (s : Synch) (t : Tid) (p : SPC) : Option Synch :=
  match lock_release_V s.lock with
  | .done l => some ({ s with lock := l }.goto t p)
  | _ => none

/-- Thread t takes the spinlock of the condition variable and continues at p. -/
def Synch.doSpin (s : Synch) (t : Tid) (p : SPC) : Option Synch :=
  match spinlock_acquire t s.cv with
  | .done c => some ({ s with cv := c }.goto t p)
  | _ => none

/-- One step of thread t: the statement at its program point.  Between calls
the thread enters the function named by call (lock_release and cv_wait only on a
lock it has acquired and not released); pick is the wake-up choice of
wchan_wakeone.  The result is none when the statement cannot run now (the
thread sleeps or spins) or a KASSERT fails. -/
def sstep (s : Synch) (t : Tid) (call : Call) (pick : Nat) : Option Synch :=
  match s.pc t with
  | .idle =>
    match call with
    | .lock_acquire => some (s.goto t .acq_P)
    | .cv_signal => some (s.goto t (.sig_spin false))
    | .cv_broadcast => some (s.goto t (.bc_spin false))
    | _ => none
  | .holding =>
    match call with
    | .lock_acquire => some (s.goto t .reacq_P)
    | .lock_release => some (s.goto t .rel_V)
    | .cv_wait => some (s.goto t .wait_spin)
    | .cv_signal => some (s.goto t (.sig_spin true))
    | .cv_broadcast => some (s.goto t (.bc_spin true))
  | .acq_P => s.doP t .acq_set
  | .reacq_P => s.doP t .acq_set
  | .acq_set => some ({ s with lock := lock_acquire_set t s.lock }.goto t .holding)
  | .rel_V => s.doV t .rel_clear
  | .rel_clear => some ({ s with lock := lock_release_clear s.lock }.goto t .idle)
  | .wait_spin => s.doSpin t .wait_rel_V
  | .wait_rel_V => s.doV t .wait_rel_clear
  | .wait_rel_clear => some ({ s with lock := lock_release_clear s.lock }.goto t .wait_sleep)
  | .wait_sleep => some ({ s with cv := wchan_sleep t s.cv }.goto t .wait_asleep)
  | .wait_asleep => none
  | .wait_woken => s.doSpin t .wait_unspin
  | .wait_unspin => some ({ s with cv := spinlock_release s.cv }.goto t .wait_acq_P)
  | .wait_acq_P => s.doP t .wait_acq_set
  | .wait_acq_set => some ({ s with lock := lock_acquire_set t s.lock }.goto t .holding)
  | .sig_spin h => s.doSpin t (.sig_wake h)
  | .sig_wake h =>
    match wchan_wakeone pick s.cv with
    | (some u, c) => some (({ s with cv := c }.goto u .wait_woken).goto t (.sig_unspin h))
    | (none, c) => some ({ s with cv := c }.goto t (.sig_unspin h))
  | .sig_unspin h => some ({ s with cv := spinlock_release s.cv }.goto t (SPC.back h))
  | .bc_spin h => s.doSpin t (.bc_wake h)
  | .bc_wake h =>
    let (woken, c) := wchan_wakeall s.cv
    some ({ s with cv := c,
                   pc := fun u => if u ∈ woken then .wait_woken else s.pc u }.goto t (.bc_unspin h))
  | .bc_unspin h => some ({ s with cv := spinlock_release s.cv }.goto t (SPC.back h))

/-- States reachable from the initial state by any interleaving of steps. -/
inductive SReach : Synch → Prop where
  | init : SReach Synch.init
  | step {s s' : Synch} (t : Tid) (call : Call) (pick : Nat) :
      SReach s → sstep s t call pick = some s' → SReach s'

/-- Running a schedule: a list of (thread, call, pick) choices. -/
def srun (s : Synch) : List (Tid × Call × Nat) → Option Synch
  | [] => some s
  | (t, call, pick) :: rest =>
    match sstep s t call pick with
    | some s' => srun s' rest
    | none => none

/-- The state after running a schedule from s (s itself when some step of the
schedule cannot be taken). -/
def Synch.after (s : Synch) (sched : List (Tid × Call × Nat)) : Synch :=
  (srun s sched).getD s

/-- An interleaving of two threads: thread 0 acquires the lock and starts
lock_release; after the V of thread 0, thread 1 runs lock_acquire to completion;
then thread 0 runs the last statement of its lock_release. -/
def stale_clear_schedule : List (Tid × Call × Nat) :=
  [(0, .lock_acquire, 0), (0, .lock_acquire, 0), (0, .lock_acquire, 0),
   (0, .lock_release, 0), (0, .lock_release, 0),
   (1, .lock_acquire, 0), (1, .lock_acquire, 0), (1, .lock_acquire, 0),
   (0, .lock_release, 0)]

/-- The thread owns the permit of the lock at this program point: it has passed
the P of lock_acquire and not yet run the V of lock_release. -/
def SPC.owns : SPC → Bool
  | .holding | .reacq_P | .acq_set | .rel_V | .wait_spin | .wait_rel_V | .wait_acq_set => true
  | .sig_spin h | .sig_wake h | .sig_unspin h => h
  | .bc_spin h | .bc_wake h | .bc_unspin h => h
  | _ => false

/-- The thread holds the spinlock of the condition variable at this program
point. -/
def SPC.hasSpin : SPC → Bool
  | .wait_rel_V | .wait_rel_clear | .wait_sleep | .wait_unspin => true
  | .sig_wake _ | .sig_unspin _ | .bc_wake _ | .bc_unspin _ => true
  | _ => false

/-- Invariant of the thread system, stated on the permit count, the condition
variable and the program points: the count is 0 or 1, at most one thread owns
the permit and then the count is 0, the wait channel lists distinct suspended
threads, and a thread at a program point inside a spinlock section is the
holder of the spinlock. -/
structure SInvC (c : Nat) (cv : Cv) (pc : Tid → SPC) : Prop where
  count_le : c ≤ 1
  owner_unique : ∀ t u, (pc t).owns = true → (pc u).owns = true → t = u
  owner_count : ∀ t, (pc t).owns = true → c = 0
  wchan_nodup : cv.cv_wchan.Nodup
  wchan_asleep : ∀ u ∈ cv.cv_wchan, pc u = .wait_asleep
  spin_holder : ∀ u, (pc u).hasSpin = true → cv.cv_spinlock = some u

/-- The invariant on a state. -/
def SInv (s : Synch) : Prop := SInvC s.lock.lk_sem.sem_count s.cv s.pc

/-- The thread is part-way through lock_acquire or lock_release. -/
def SPC.midLock : SPC → Bool
  | .acq_P | .reacq_P | .acq_set | .rel_V | .rel_clear => true
  | .wait_rel_V | .wait_rel_clear | .wait_acq_P | .wait_acq_set => true
  | _ => false

/-- Thread 0 completes lock_acquire and calls cv_wait. -/
def wait_entry_schedule : List (Tid × Call × Nat) :=
  [(0, .lock_acquire, 0), (0, .lock_acquire, 0), (0, .lock_acquire, 0), (0, .cv_wait, 0)]

/-- Thread 0, inside cv_wait, runs spinlock_acquire (line 281), the V and the
holder clear of lock_release (line 282) and goes to sleep in wchan_sleep
(line 285). -/
def wait_sleep_schedule : List (Tid × Call × Nat) :=
  [(0, .cv_wait, 0), (0, .cv_wait, 0), (0, .cv_wait, 0), (0, .cv_wait, 0)]

/-- Thread 1 runs lock_acquire, then cv_signal while holding the lock, then
lock_release up to and including its V (line 206 of synch.c); its holder clear
(line 209) is still to run. -/
def signaller_schedule : List (Tid × Call × Nat) :=
  [(1, .lock_acquire, 0), (1, .lock_acquire, 0), (1, .lock_acquire, 0),
   (1, .cv_signal, 0), (1, .cv_signal, 0), (1, .cv_signal, 0), (1, .cv_signal, 0),
   (1, .lock_release, 0), (1, .lock_release, 0)]

/-- Thread 0, woken, takes the spinlock back inside wchan_sleep, runs
spinlock_release (line 288) and lock_acquire (line 289): cv_wait returns. -/
def wait_return_schedule : List (Tid × Call × Nat) :=
  [(0, .cv_wait, 0), (0, .cv_wait, 0), (0, .cv_wait, 0), (0, .cv_wait, 0)]

/-- Thread 1 runs the last statement of its lock_release (line 209). -/
def late_clear_schedule : List (Tid × Call × Nat) :=
  [(1, .lock_release, 0)]

/-! ## The air-balloon scenario (airballoon.c)

The shared variables of the file, the locks, and one program point per thread.
A step of a thread is one statement of its function, except that a call to
lock_acquire or lock_release takes two steps, one for each statement of synch.c
that touches the lock (P then the holder write, V then the holder clear); the
steps of the threads interleave freely.  The C integers of the file stay within
[0, NROPES], so they are taken as unbounded integers. -/

/-- The constant N_LORD_FLOWERKILLER. -/
def N_LORD_FLOWERKILLER : Nat := 8

/-- The constant NROPES. -/
def NROPES : Nat := 16

/-- An index into the array ropes. -/
abbrev RopeIx := Fin NROPES

/-- The structure rope. -/
structure Rope where
  hook : Int
  stake : Int
  connected : Bool
  rope_lock : Lock

/-- The locks of the file: one per rope, count_lock and print_lock. -/
inductive LockId where
  | rope (k : RopeIx)
  | count
  | print
  deriving DecidableEq, Repr

/-- The two cutter functions, dandelion and marigold, which differ only in
their messages and in the exit counter they increment. -/
inductive Cutter where
  | dandelion
  | marigold
  deriving DecidableEq, Repr

/-- The four thread functions. -/
inductive Role where
  | dandelion
  | marigold
  | flowerkiller
  | balloon
  deriving DecidableEq, Repr

/-- The thread function of a cutter. -/
def Cutter.role : Cutter → Role
  | .dandelion => .dandelion
  | .marigold => .marigold

/-- One kprintf call: the format string (without its final newline) and the
integer arguments. -/
structure Msg where
  fmt : String
  args : List Int
  deriving DecidableEq, Repr

/-- Program points of dandelion and marigold; each names the statement (by its
line in airballoon.c) the thread executes next and carries the local variable
in scope. -/
inductive CutPC where
  /-- dandelion 46, marigold 86 -/
  | start_acq
  /-- dandelion 47, marigold 87 -/
  | start_print
  /-- dandelion 48, marigold 88 -/
  | start_rel
  /-- dandelion 51, marigold 91: while (ropes_left > 0) -/
  | loop
  /-- dandelion 54, marigold 94: i = random() % NROPES -/
  | pick
  /-- dandelion 55, marigold 95 -/
  | acq_rope (i : RopeIx)
  /-- dandelion 58, marigold 98: if (ropes[i]->connected) -/
  | test (i : RopeIx)
  /-- dandelion 59, marigold 99 -/
  | acq_count (i : RopeIx)
  /-- dandelion 60, marigold 100: ropes[i]->connected = false -/
  | sever (i : RopeIx)
  /-- dandelion 61, marigold 101: ropes_left-- -/
  | dec (i : RopeIx)
  /-- dandelion 62, marigold 102 -/
  | acq_print (i : RopeIx)
  /-- dandelion 63, marigold 103 -/
  | print (i : RopeIx)
  /-- dandelion 64, marigold 104 -/
  | rel_print (i : RopeIx)
  /-- dandelion 65, marigold 105 -/
  | rel_count (i : RopeIx)
  /-- dandelion 67, marigold 107 -/
  | rel_rope (i : RopeIx)
  /-- dandelion 68, marigold 108: thread_yield -/
  | yield
  /-- dandelion 71, marigold 111 -/
  | done_acq
  /-- dandelion 72, marigold 112 -/
  | done_print
  /-- dandelion 73, marigold 113 -/
  | done_rel
  /-- dandelion 76, marigold 116: the exit counter -/
  | exit
  deriving DecidableEq, Repr

/-- Program points of flowerkiller, with the locals i, j and temp in scope. -/
inductive FkPC where
  /-- line 126 -/
  | start_acq
  /-- line 127 -/
  | start_print
  /-- line 128 -/
  | start_rel
  /-- line 131: while (ropes_left > 1) -/
  | loop
  /-- line 134: i = random() % NROPES -/
  | pick_i
  /-- line 135: j = random() % NROPES -/
  | pick_j (i : RopeIx)
  /-- line 138: if (i == j) continue -/
  | same (i j : RopeIx)
  /-- lines 141-145: if (i > j) exchange i and j -/
  | order (i j : RopeIx)
  /-- line 148 -/
  | acq_lo (i j : RopeIx)
  /-- line 149 -/
  | acq_hi (i j : RopeIx)
  /-- line 152: if (ropes[i]->connected && ropes[j]->connected) -/
  | test (i j : RopeIx)
  /-- line 155: temp = ropes[i]->stake -/
  | swap1 (i j : RopeIx)
  /-- line 156: ropes[i]->stake = ropes[j]->stake -/
  | swap2 (i j : RopeIx) (temp : Int)
  /-- line 157: ropes[j]->stake = temp -/
  | swap3 (i j : RopeIx) (temp : Int)
  /-- line 160 -/
  | acq_print (i j : RopeIx)
  /-- line 161 -/
  | print1 (i j : RopeIx)
  /-- line 165 -/
  | print2 (i j : RopeIx)
  /-- line 169 -/
  | rel_print (i j : RopeIx)
  /-- line 171 -/
  | rel_lo (i j : RopeIx)
  /-- line 172 -/
  | rel_hi (i j : RopeIx)
  /-- line 173: thread_yield -/
  | yield
  /-- line 176 -/
  | done_acq
  /-- line 177 -/
  | done_print
  /-- line 178 -/
  | done_rel
  /-- line 181: flowerkiller_exit++ -/
  | exit
  deriving DecidableEq, Repr

/-- Program points of balloon, with the local count in scope. -/
inductive BalPC where
  /-- line 191 -/
  | start_acq
  /-- line 192 -/
  | start_print
  /-- line 193 -/
  | start_rel
  /-- line 197 -/
  | acq_count
  /-- line 198: count = ropes_left -/
  | read
  /-- line 199 -/
  | rel_count (count : Int)
  /-- line 200: if (count == 0) break -/
  | test (count : Int)
  /-- line 201: thread_yield -/
  | yield
  /-- line 204 -/
  | done_acq
  /-- line 205 -/
  | done_print1
  /-- line 206 -/
  | done_print2
  /-- line 207 -/
  | done_rel
  /-- line 210: balloon_exit++ -/
  | exit
  deriving DecidableEq, Repr

/-- Program point of a thread: inside one of the thread functions, or
finished when the function has returned (also used for thread identities that
were never forked). -/
inductive BPC where
  | cut (c : Cutter) (p : CutPC)
  | fk (p : FkPC)
  | bal (p : BalPC)
  | finished
  deriving DecidableEq, Repr

/-- Where a thread is: about to run the statement at a program point of its
function, or inside lock_acquire or lock_release called from the function, a call
that returns to the program point next.  Inside lock_acquire the thread is past
P(lock->lk_sem) (line 194 of synch.c) and about to write lk_holder (line 197);
inside lock_release it is past V(lock->lk_sem) (line 206) and about to clear
lk_holder (line 209). -/
inductive TPC where
  | run (p : BPC)
  | in_acquire (l : LockId) (next : BPC)
  | in_release (l : LockId) (next : BPC)
  deriving DecidableEq, Repr

/-- The global variables of airballoon.c, the console output, and the position
of every thread. -/
structure Balloon where
  ropes_left : Int
  dandelion_exit : Int
  marigold_exit : Int
  balloon_exit : Int
  flowerkiller_exit : Int
  ropes : RopeIx → Rope
  print_lock : Lock
  count_lock : Lock
  console : List Msg
  pc : Tid → TPC

/-- The effect of one statement on the shared state, with the program point
that follows it. -/
inductive Act where
  /-- lock_acquire on a lock -/
  | acquire (l : LockId) (next : BPC)
  /-- lock_release on a lock -/
  | release (l : LockId) (next : BPC)
  /-- a test, an assignment to a local variable or thread_yield -/
  | goto (next : BPC)
  /-- kprintf -/
  | kprintf (m : Msg) (next : BPC)
  /-- ropes[i]->connected = false -/
  | sever (i : RopeIx) (next : BPC)
  /-- ropes_left-- -/
  | decrement (next : BPC)
  /-- ropes[i]->stake = v -/
  | setStake (i : RopeIx) (v : Int) (next : BPC)
  /-- increment of the exit counter of a thread function -/
  | exit (r : Role) (next : BPC)
  /-- nothing left to run -/
  | stop

/-- The value random() % NROPES for a value r returned by random(). -/
def draw (r : Nat) : RopeIx :=
  ⟨r % NROPES, Nat.mod_lt r (by decide)⟩

/-- The starting message of a cutter. -/
def Cutter.startMsg : Cutter → Msg
  | .dandelion => ⟨"Dandelion thread starting", []⟩
  | .marigold => ⟨"Marigold thread starting", []⟩

/-- The message a cutter prints after severing a rope. -/
def Cutter.severMsg (c : Cutter) (rope : Rope) : Msg :=
  match c with
  | .dandelion => ⟨"Dandelion severed rope %d", [rope.hook]⟩
  | .marigold => ⟨"Marigold severed rope %d from stake %d", [rope.hook, rope.stake]⟩

/-- The final message of a cutter. -/
def Cutter.doneMsg : Cutter → Msg
  | .dandelion => ⟨"Dandelion thread done", []⟩
  | .marigold => ⟨"Marigold thread done", []⟩

/-- The message of Lord FlowerKiller for one rope of a swap. -/
def switchMsg (hook src dst : Int) : Msg :=
  ⟨"Lord FlowerKiller switched rope %d from stake %d to stake %d", [hook, src, dst]⟩

/-- The statements of dandelion (c = dandelion) and marigold (c = marigold): what
the statement at a program point does in state s, r being the value returned by
random() if the statement calls it. -/
def cutter (c : Cutter) (s : Balloon) (r : Nat) : CutPC → Act
  | .start_acq => .acquire .print (.cut c .start_print)
  | .start_print => .kprintf c.startMsg (.cut c .start_rel)
  | .start_rel => .release .print (.cut c .loop)
  | .loop => .goto (if s.ropes_left > 0 then .cut c .pick else .cut c .done_acq)
  | .pick => .goto (.cut c (.acq_rope (draw r)))
  | .acq_rope i => .acquire (.rope i) (.cut c (.test i))
  | .test i =>
    .goto (if (s.ropes i).connected then .cut c (.acq_count i) else .cut c (.rel_rope i))
  | .acq_count i => .acquire .count (.cut c (.sever i))
  | .sever i => .sever i (.cut c (.dec i))
  | .dec i => .decrement (.cut c (.acq_print i))
  | .acq_print i => .acquire .print (.cut c (.print i))
  | .print i => .kprintf (c.severMsg (s.ropes i)) (.cut c (.rel_print i))
  | .rel_print i => .release .print (.cut c (.rel_count i))
  | .rel_count i => .release .count (.cut c (.rel_rope i))
  | .rel_rope i => .release (.rope i) (.cut c .yield)
  | .yield => .goto (.cut c .loop)
  | .done_acq => .acquire .print (.cut c .done_print)
  | .done_print => .kprintf c.doneMsg (.cut c .done_rel)
  | .done_rel => .release .print (.cut c .exit)
  | .exit => .exit c.role .finished

/-- The statements of flowerkiller. -/
def flowerkiller (s : Balloon) (r : Nat) : FkPC → Act
  | .start_acq => .acquire .print (.fk .start_print)
  | .start_print => .kprintf ⟨"Lord FlowerKiller thread starting", []⟩ (.fk .start_rel)
  | .start_rel => .release .print (.fk .loop)
  | .loop => .goto (if s.ropes_left > 1 then .fk .pick_i else .fk .done_acq)
  | .pick_i => .goto (.fk (.pick_j (draw r)))
  | .pick_j i => .goto (.fk (.same i (draw r)))
  | .same i j => .goto (if i = j then .fk .loop else .fk (.order i j))
  | .order i j => .goto (if i > j then .fk (.acq_lo j i) else .fk (.acq_lo i j))
  | .acq_lo i j => .acquire (.rope i) (.fk (.acq_hi i j))
  | .acq_hi i j => .acquire (.rope j) (.fk (.test i j))
  | .test i j =>
    .goto (if (s.ropes i).connected && (s.ropes j).connected then .fk (.swap1 i j)
           else .fk (.rel_lo i j))
  | .swap1 i j => .goto (.fk (.swap2 i j (s.ropes i).stake))
  | .swap2 i j temp => .setStake i (s.ropes j).stake (.fk (.swap3 i j temp))
  | .swap3 i j temp => .setStake j temp (.fk (.acq_print i j))
  | .acq_print i j => .acquire .print (.fk (.print1 i j))
  | .print1 i j =>
    .kprintf (switchMsg (s.ropes i).hook (s.ropes j).stake (s.ropes i).stake)
      (.fk (.print2 i j))
  | .print2 i j =>
    .kprintf (switchMsg (s.ropes j).hook (s.ropes i).stake (s.ropes j).stake)
      (.fk (.rel_print i j))
  | .rel_print i j => .release .print (.fk (.rel_lo i j))
  | .rel_lo i j => .release (.rope i) (.fk (.rel_hi i j))
  | .rel_hi _ j => .release (.rope j) (.fk .yield)
  | .yield => .goto (.fk .loop)
  | .done_acq => .acquire .print (.fk .done_print)
  | .done_print => .kprintf ⟨"Lord FlowerKiller thread done", []⟩ (.fk .done_rel)
  | .done_rel => .release .print (.fk .exit)
  | .exit => .exit .flowerkiller .finished

/-- The statements of balloon. -/
def balloon (s : Balloon) : BalPC → Act
  | .start_acq => .acquire .print (.bal .start_print)
  | .start_print => .kprintf ⟨"Balloon thread starting", []⟩ (.bal .start_rel)
  | .start_rel => .release .print (.bal .acq_count)
  | .acq_count => .acquire .count (.bal .read)
  | .read => .goto (.bal (.rel_count s.ropes_left))
  | .rel_count c => .release .count (.bal (.test c))
  | .test c => .goto (if c = 0 then .bal .done_acq else .bal .yield)
  | .yield => .goto (.bal .acq_count)
  | .done_acq => .acquire .print (.bal .done_print1)
  | .done_print1 =>
    .kprintf ⟨"Balloon freed and Prince Dandelion escapes!", []⟩ (.bal .done_print2)
  | .done_print2 => .kprintf ⟨"Balloon thread done", []⟩ (.bal .done_rel)
  | .done_rel => .release .print (.bal .exit)
  | .exit => .exit .balloon .finished

/-- The statement at the program point of a thread. -/
def action (s : Balloon) (r : Nat) : BPC → Act
  | .cut c p => cutter c s r p
  | .fk p => flowerkiller s r p
  | .bal p => balloon s p
  | .finished => .stop

/-- The lock structure behind a lock identifier. -/
def Balloon.getLock (s : Balloon) : LockId → Lock
  | .rope k => (s.ropes k).rope_lock
  | .count => s.count_lock
  | .print => s.print_lock

/-- Store a lock structure. -/
def Balloon.setLock (s : Balloon) (l : LockId) (lk : Lock) : Balloon :=
  match l with
  | .rope k => { s with ropes := Function.update s.ropes k { s.ropes k with rope_lock := lk } }
  | .count => { s with count_lock := lk }
  | .print => { s with print_lock := lk }

/-- Thread t moves to position q. -/
def Balloon.goto (s : Balloon) (t : Tid) (q : TPC) : Balloon :=
  { s with pc := Function.update s.pc t q }

/-- Increment of the exit counter of a thread function. -/
def Balloon.incExit (s : Balloon) : Role → Balloon
  | .dandelion => { s with dandelion_exit := s.dandelion_exit + 1 }
  | .marigold => { s with marigold_exit := s.marigold_exit + 1 }
  | .flowerkiller => { s with flowerkiller_exit := s.flowerkiller_exit + 1 }
  | .balloon => { s with balloon_exit := s.balloon_exit + 1 }

/-- Thread t runs the statement described by an action.  For a call to
lock_acquire or lock_release this is the first statement of the called function
(P or V), after which the thread is inside the function.  The result is none
when P would put the thread to sleep, when a KASSERT fails, or when the thread
has returned. -/
def Balloon.perform (s : Balloon) (t : Tid) : Act → Option Balloon
  | .acquire l next =>
    match lock_acquire_P (s.getLock l) with
    | .done lk => some ((s.setLock l lk).goto t (.in_acquire l next))
    | _ => none
  | .release l next =>
    match lock_release_V (s.getLock l) with
    | .done lk => some ((s.setLock l lk).goto t (.in_release l next))
    | _ => none
  | .goto next => some (s.goto t (.run next))
  | .kprintf m next => some ({ s with console := s.console ++ [m] }.goto t (.run next))
  | .sever i next =>
    some ({ s with ropes := Function.update s.ropes i { s.ropes i with connected := false } }.goto
      t (.run next))
  | .decrement next => some ({ s with ropes_left := s.ropes_left - 1 }.goto t (.run next))
  | .setStake i v next =>
    some ({ s with ropes := Function.update s.ropes i { s.ropes i with stake := v } }.goto t
      (.run next))
  | .exit r next => some ((s.incExit r).goto t (.run next))
  | .stop => none

/-- One step of thread t, r being the value random() returns if called: the
statement of its function, or the second statement of the lock function it is
inside. -/
def bstep (s : Balloon) (t : Tid) (r : Nat) : Option Balloon :=
  match s.pc t with
  | .run p => s.perform t (action s r p)
  | .in_acquire l next =>
    some ((s.setLock l (lock_acquire_set t (s.getLock l))).goto t (.run next))
  | .in_release l next =>
    some ((s.setLock l (lock_release_clear (s.getLock l))).goto t (.run next))

/-- The threads forked by airballoon, in fork order: Marigold, Dandelion, the
N_LORD_FLOWERKILLER flowerkillers, the balloon.  A thread that has been forked
and has not run yet is at the first statement of its function. -/
def startPc (t : Tid) : BPC :=
  if t = 0 then .cut .marigold .start_acq
  else if t = 1 then .cut .dandelion .start_acq
  else if t < 2 + N_LORD_FLOWERKILLER then .fk .start_acq
  else if t = 2 + N_LORD_FLOWERKILLER then .bal .start_acq
  else .finished

/-- The state set up by airballoon (lines 225-242) with all threads forked. -/
def Balloon.init : Balloon :=
  { ropes_left := NROPES
    dandelion_exit := 0
    marigold_exit := 0
    balloon_exit := 0
    flowerkiller_exit := 0
    ropes := fun i => { hook := i.val, stake := i.val, connected := true, rope_lock := lock_create }
    print_lock := lock_create
    count_lock := lock_create
    console := []
    pc := fun t => .run (startPc t) }

/-- States reachable from the initial state by any interleaving of steps and
any values of random(). -/
inductive BReach : Balloon → Prop where
  | init : BReach Balloon.init
  | step {s s' : Balloon} (t : Tid) (r : Nat) : BReach s → bstep s t r = some s' → BReach s'

/-- Executions: s' is reached from s by some steps. -/
inductive BSteps : Balloon → Balloon → Prop where
  | refl (s : Balloon) : BSteps s s
  | step {s s' s'' : Balloon} (t : Tid) (r : Nat) :
      bstep s t r = some s' → BSteps s' s'' → BSteps s s''

/-- Running a schedule: a list of (thread, random value) choices. -/
def brun (s : Balloon) : List (Tid × Nat) → Option Balloon
  | [] => some s
  | (t, r) :: rest =>
    match bstep s t r with
    | some s' => brun s' rest
    | none => none

/-- The state after running a schedule from s (s itself when some step of the
schedule cannot be taken). -/
def Balloon.after (s : Balloon) (sched : List (Tid × Nat)) : Balloon :=
  (brun s sched).getD s

/-- The number of ropes whose connected flag is true. -/
def Balloon.connectedCount (s : Balloon) : Nat :=
  (Finset.univ.filter fun k : RopeIx => (s.ropes k).connected = true).card

/-- The locks a cutter holds at a program point: those it has acquired and not
yet released according to the text of the function. -/
def CutPC.held : CutPC → List LockId
  | .start_print | .start_rel => [.print]
  | .test i | .acq_count i | .rel_rope i => [.rope i]
  | .sever i | .dec i | .acq_print i | .rel_count i => [.count, .rope i]
  | .print i | .rel_print i => [.print, .count, .rope i]
  | .done_print | .done_rel => [.print]
  | .start_acq | .loop | .pick | .acq_rope _ | .yield | .done_acq | .exit => []

/-- The locks flowerkiller holds at a program point. -/
def FkPC.held : FkPC → List LockId
  | .start_print | .start_rel => [.print]
  | .acq_hi i _ => [.rope i]
  | .test i j | .swap1 i j | .swap2 i j _ | .swap3 i j _ => [.rope j, .rope i]
  | .acq_print i j | .rel_lo i j => [.rope j, .rope i]
  | .print1 i j | .print2 i j | .rel_print i j => [.print, .rope j, .rope i]
  | .rel_hi _ j => [.rope j]
  | .done_print | .done_rel => [.print]
  | .start_acq | .loop | .pick_i | .pick_j _ | .same _ _ | .order _ _ | .acq_lo _ _ => []
  | .yield | .done_acq | .exit => []

/-- The locks balloon holds at a program point. -/
def BalPC.held : BalPC → List LockId
  | .start_print | .start_rel => [.print]
  | .read | .rel_count _ => [.count]
  | .done_print1 | .done_print2 | .done_rel => [.print]
  | .start_acq | .acq_count | .test _ | .yield | .done_acq | .exit => []

/-- The locks a thread holds at its program point. -/
def BPC.held : BPC → List LockId
  | .cut _ p => p.held
  | .fk p => p.held
  | .bal p => p.held
  | .finished => []

/-- After line 138 of flowerkiller the locals i and j differ, and after line 145
i is smaller than j. -/
def FkPC.ordered : FkPC → Prop
  | .order i j => i ≠ j
  | .acq_lo i j | .acq_hi i j | .test i j | .swap1 i j => i < j
  | .swap2 i j _ | .swap3 i j _ | .acq_print i j | .print1 i j => i < j
  | .print2 i j | .rel_print i j | .rel_lo i j | .rel_hi i j => i < j
  | .start_acq | .start_print | .start_rel | .loop | .pick_i | .pick_j _ | .same _ _ => True
  | .yield | .done_acq | .done_print | .done_rel | .exit => True

/-- The constraint on the locals of a thread at its program point. -/
def BPC.ordered : BPC → Prop
  | .fk p => p.ordered
  | .cut _ _ | .bal _ | .finished => True

/-- The thread is between connected = false and ropes_left-- in a cutter. -/
def BPC.inFlight : BPC → Bool
  | .cut _ (.dec _) => true
  | _ => false

/-- The rope a cutter has found connected and is about to sever. -/
def BPC.severing : BPC → Option RopeIx
  | .cut _ (.acq_count i) | .cut _ (.sever i) => some i
  | _ => none

/-- The balloon thread has read ropes_left = 0 at line 198. -/
def BalPC.sawZero : BalPC → Bool
  | .rel_count c | .test c => decide (c = 0)
  | .done_acq | .done_print1 | .done_print2 | .done_rel | .exit => true
  | .start_acq | .start_print | .start_rel | .acq_count | .read | .yield => false

/-- The balloon thread has read ropes_left = 0 at line 198. -/
def BPC.sawZero : BPC → Bool
  | .bal p => p.sawZero
  | .cut _ _ | .fk _ | .finished => false

/-- The statement of its function that a thread runs next, after returning from
the lock function if it is inside one. -/
def TPC.cont : TPC → BPC
  | .run p => p
  | .in_acquire _ next => next
  | .in_release _ next => next

/-- The locks a thread holds: those for which it is past the P of lock_acquire
and not past the V of lock_release.  Inside lock_acquire (past P) and inside
lock_release (past V) these are the locks held at the return point. -/
def TPC.held (q : TPC) : List LockId :=
  q.cont.held

/-- Thread t holds lock l in state s. -/
def Balloon.holds (s : Balloon) (t : Tid) (l : LockId) : Prop :=
  l ∈ (s.pc t).held

/-- The next step of the thread is a statement that reads or writes ropes_left
(lines 51, 61, 91, 101, 131, 198). -/
def TPC.accessesRopesLeft : TPC → Bool
  | .run (.cut _ .loop) | .run (.cut _ (.dec _)) | .run (.fk .loop) | .run (.bal .read) => true
  | _ => false

/-- The accesses to ropes_left inside a count_lock section: the decrement of the
cutters and the read of the balloon. -/
def TPC.lockedAccess : TPC → Bool
  | .run (.cut _ (.dec _)) | .run (.bal .read) => true
  | _ => false

/-- The reads of ropes_left in the loop conditions of dandelion, marigold and
flowerkiller. -/
def TPC.loopRead : TPC → Bool
  | .run (.cut _ .loop) | .run (.fk .loop) => true
  | _ => false

/-- Position of a lock in the order rope 0 < ... < rope 15 < count_lock <
print_lock. -/
def LockId.rank : LockId → Nat
  | .rope k => k.val
  | .count => NROPES
  | .print => NROPES + 1

/-- The program point that follows an action. -/
def Act.next : Act → Option BPC
  | .acquire _ n | .release _ n | .goto n | .kprintf _ n | .sever _ n => some n
  | .decrement n | .setStake _ _ n | .exit _ n => some n
  | .stop => none

/-- The lock on which thread t is blocked: its next statement is lock_acquire
on a lock whose permit count is 0. -/
def Balloon.waiting (s : Balloon) (t : Tid) : Option LockId :=
  match s.pc t with
  | .run p =>
    match action s 0 p with
    | .acquire l _ => if (s.getLock l).lk_sem.sem_count = 0 then some l else none
    | _ => none
  | _ => none

/-- Thread t is blocked on a lock held by thread u. -/
def Balloon.waitsFor (s : Balloon) (t u : Tid) : Prop :=
  ∃ l, s.waiting t = some l ∧ s.holds u l

/-- Thread t holds some lock. -/
def Balloon.holdsAny (s : Balloon) (t : Tid) : Prop :=
  ∃ l, s.holds t l

/-- The statement is neither a lock operation nor a write to connected or
ropes_left, and continues at n. -/
def Act.plain (a : Act) (n : BPC) : Prop :=
  a = .goto n ∨ (∃ m, a = .kprintf m n) ∨ (∃ i v, a = .setStake i v n) ∨ (∃ r, a = .exit r n)

/-- Invariant of the scenario: a permit count is 0 or 1 and is 0 exactly when
some thread, then unique, holds the lock; the locals of flowerkiller are ordered;
a rope a cutter is about to sever is connected; ropes_left is the number of
connected ropes, plus one while a cutter is between lines 60 and 61; and once
the balloon has read 0 no rope is connected. -/
structure BInv (s : Balloon) : Prop where
  count_le : ∀ l, (s.getLock l).lk_sem.sem_count ≤ 1
  owner_unique : ∀ t u l, s.holds t l → s.holds u l → t = u
  owner_count : ∀ t l, s.holds t l → (s.getLock l).lk_sem.sem_count = 0
  count_owner : ∀ l, (s.getLock l).lk_sem.sem_count = 0 → ∃ t, s.holds t l
  ordered : ∀ t, (s.pc t).cont.ordered
  severing_connected : ∀ t i, (s.pc t).cont.severing = some i → (s.ropes i).connected = true
  count_idle : (∀ t, (s.pc t).cont.inFlight = false) → s.ropes_left = s.connectedCount
  count_flight : ∀ t, (s.pc t).cont.inFlight = true → s.ropes_left = s.connectedCount + 1
  zero_seen : ∀ t, (s.pc t).cont.sawZero = true → s.connectedCount = 0

/-- A lock operation performed by a statement. -/
inductive LockEv where
  | acquire (l : LockId)
  | release (l : LockId)
  deriving DecidableEq, Repr

/-- The lock operation of an action, if it is one. -/
def Act.lockEv : Act → List LockEv
  | .acquire l _ => [.acquire l]
  | .release l _ => [.release l]
  | _ => []

/-- The lock operation performed by the next step of thread t: the P of a
lock_acquire or the V of a lock_release. -/
def Balloon.lockEv (s : Balloon) (t : Tid) (r : Nat) : List LockEv :=
  match s.pc t with
  | .run p => (action s r p).lockEv
  | _ => []

/-- Executions of the whole system during which thread t runs from its current
position up to the first state where it is back at the loop condition of
flowerkiller (line 131), with the lock operations t performed on the way. -/
inductive IterRun (t : Tid) : Balloon → List LockEv → Balloon → Prop where
  | done {s : Balloon} : s.pc t = .run (.fk .loop) → IterRun t s [] s
  | own {s s' s'' : Balloon} {evs : List LockEv} (r : Nat) :
      s.pc t ≠ .run (.fk .loop) → bstep s t r = some s' → IterRun t s' evs s'' →
      IterRun t s (s.lockEv t r ++ evs) s''
  | other {s s' s'' : Balloon} {evs : List LockEv} (u : Tid) (r : Nat) :
      s.pc t ≠ .run (.fk .loop) → u ≠ t → bstep s u r = some s' → IterRun t s' evs s'' →
      IterRun t s evs s''

/-- The lock operations of the print section of flowerkiller (lines 160-169),
run when both ropes are connected. -/
def printSection (both : Bool) : List LockEv :=
  if both then [.acquire .print, .release .print] else []

/-- The lock operations flowerkiller still has to perform at a program point of
its loop body before it is back at line 131; both tells whether the test of line
152 succeeds, for the points before that test. -/
def FkPC.rest (both : Bool) : FkPC → List LockEv
  | .same i j =>
    if i = j then []
    else [.acquire (.rope (min i j)), .acquire (.rope (max i j))] ++ printSection both ++
      [.release (.rope (min i j)), .release (.rope (max i j))]
  | .order i j =>
    [.acquire (.rope (min i j)), .acquire (.rope (max i j))] ++ printSection both ++
      [.release (.rope (min i j)), .release (.rope (max i j))]
  | .acq_lo i j =>
    [.acquire (.rope i), .acquire (.rope j)] ++ printSection both ++
      [.release (.rope i), .release (.rope j)]
  | .acq_hi i j =>
    [.acquire (.rope j)] ++ printSection both ++ [.release (.rope i), .release (.rope j)]
  | .test i j => printSection both ++ [.release (.rope i), .release (.rope j)]
  | .swap1 i j | .swap2 i j _ | .swap3 i j _ | .acq_print i j =>
    [.acquire .print, .release .print, .release (.rope i), .release (.rope j)]
  | .print1 i j | .print2 i j | .rel_print i j =>
    [.release .print, .release (.rope i), .release (.rope j)]
  | .rel_lo i j => [.release (.rope i), .release (.rope j)]
  | .rel_hi _ j => [.release (.rope j)]
  | .start_acq | .start_print | .start_rel | .loop | .pick_i | .pick_j _ | .yield => []
  | .done_acq | .done_print | .done_rel | .exit => []

/-- The thread is in the loop body of flowerkiller after the two draws, or back
at the loop condition. -/
def FkPC.inIter : FkPC → Bool
  | .same _ _ | .order _ _ | .acq_lo _ _ | .acq_hi _ _ | .test _ _ => true
  | .swap1 _ _ | .swap2 _ _ _ | .swap3 _ _ _ | .acq_print _ _ => true
  | .print1 _ _ | .print2 _ _ | .rel_print _ _ | .rel_lo _ _ => true
  | .rel_hi _ _ | .yield | .loop => true
  | .start_acq | .start_print | .start_rel | .pick_i | .pick_j _ => false
  | .done_acq | .done_print | .done_rel | .exit => false

/-- The lock operation is on a rope lock. -/
def LockEv.onRope : LockEv → Bool
  | .acquire (.rope _) | .release (.rope _) => true
  | _ => false

/-- Dandelion (thread 1) runs alone up to its first loop test (line 51). -/
def dandelion_loop_schedule : List (Tid × Nat) :=
  [(1, 0), (1, 0), (1, 0), (1, 0), (1, 0)]

/-- Dandelion (thread 1) runs alone, draws rope 5, and stops between
connected = false (line 60) and ropes_left-- (line 61). -/
def dandelion_sever_schedule : List (Tid × Nat) :=
  [(1, 0), (1, 0), (1, 0), (1, 0), (1, 0), (1, 0), (1, 5), (1, 0), (1, 0), (1, 0), (1, 0),
   (1, 0), (1, 0)]

/-- The first flowerkiller (thread 2) runs alone up to line 138 with the draws
i = 3 and j = 1. -/
def flowerkiller_draws_schedule : List (Tid × Nat) :=
  [(2, 0), (2, 0), (2, 0), (2, 0), (2, 0), (2, 0), (2, 3), (2, 1)]

/-- The first flowerkiller (thread 2) runs the rest of the loop body alone. -/
def flowerkiller_body_schedule : List (Tid × Nat) :=
  List.replicate 21 (2, 0)

/-! # Properties -/

/-! ## Semaphore -/

theorem P_done {sem sem' : Semaphore} (h : P sem = .done sem') (hlt : sem.sem_count < UINT_MOD) :
    0 < sem.sem_count ∧ sem'.sem_count + 1 = sem.sem_count := by
  unfold P at h
  split_ifs at h with h0 h1
  simp only [Outcome.done.injEq] at h
  subst h
  refine ⟨h1, ?_⟩
  simp only [UINT_MOD] at hlt ⊢
  omega

theorem V_done {sem sem' : Semaphore} (h : V sem = .done sem') (hlt : sem.sem_count < UINT_MOD) :
    sem'.sem_count = sem.sem_count + 1 ∧ sem'.sem_count < UINT_MOD := by
  unfold V at h
  simp only at h
  split_ifs at h with h0
  simp only [Outcome.done.injEq] at h
  subst h
  simp only [UINT_MOD] at hlt h0 ⊢
  omega

theorem P_ne_panic (sem : Semaphore) : P sem ≠ .panic := by
  unfold P
  split_ifs with h0 h1
  · simp
  · simp
  · omega

/-- C1: from sem_create c0, after any interleaving of completed P calls and
performed V calls, the count has not wrapped, equals c0 plus the V calls minus
the P calls (so it is non-negative and never exceeds that quantity), and the
KASSERT(sem_count > 0) of P cannot fail in the state reached. -/
theorem sem_count_accounting (c0 : Nat) (hc : c0 < UINT_MOD) (h : SemHistory)
    (hr : SemReach c0 h) :
    (h.sem.sem_count : Int) = (c0 : Int) + h.performedV - h.completedP ∧
    0 ≤ (h.sem.sem_count : Int) ∧
    (h.sem.sem_count : Int) ≤ (c0 : Int) + h.performedV - h.completedP ∧
    h.sem.sem_count < UINT_MOD ∧
    P h.sem ≠ .panic := by
  have key : (h.sem.sem_count : Int) = (c0 : Int) + h.performedV - h.completedP ∧
      h.sem.sem_count < UINT_MOD := by
    induction hr with
    | init => simpa [sem_create] using hc
    | down _ hP ih =>
      obtain ⟨h1, h2⟩ := P_done hP ih.2
      have ih1 := ih.1
      have ih2 := ih.2
      dsimp only at ih1 ih2 h1 h2 ⊢
      constructor
      · push_cast
        omega
      · omega
    | up _ hV ih =>
      obtain ⟨h1, h2⟩ := V_done hV ih.2
      have ih1 := ih.1
      dsimp only at ih1 h1 h2 ⊢
      constructor
      · push_cast
        omega
      · exact h2
  exact ⟨key.1, by omega, le_of_eq key.1, key.2, P_ne_panic _⟩

/-- Instance of sem_count_accounting: a semaphore created with count 1 after one
completed P. -/
theorem sem_count_accounting_witness :
    ((0 : Nat) : Int) = ((1 : Nat) : Int) + (0 : Nat) - ((0 + 1 : Nat) : Int) ∧
    0 ≤ ((0 : Nat) : Int) ∧
    ((0 : Nat) : Int) ≤ ((1 : Nat) : Int) + (0 : Nat) - ((0 + 1 : Nat) : Int) ∧
    0 < UINT_MOD ∧
    P ⟨0⟩ ≠ .panic :=
  sem_count_accounting 1 (by decide) ⟨⟨0⟩, 0 + 1, 0⟩
    (SemReach.down (h := ⟨sem_create 1, 0, 0⟩) SemReach.init (by decide))

/-! ## Lock: the two statements of lock_release -/

theorem V_eq (sem : Semaphore) (hlt : sem.sem_count < UINT_MOD) :
    V sem = if sem.sem_count + 1 < UINT_MOD then .done ⟨sem.sem_count + 1⟩ else .panic := by
  unfold V
  norm_num [UINT_MOD] at hlt ⊢
  by_cases h : sem.sem_count + 1 < 4294967296
  · rw [Nat.mod_eq_of_lt h, if_pos h, if_pos (Nat.succ_pos _)]
  · have h1 : sem.sem_count + 1 = 4294967296 := by omega
    rw [h1, if_neg (by omega)]
    simp

theorem lock_release_V_eq (lock : Lock) (hlt : lock.lk_sem.sem_count < UINT_MOD) :
    lock_release_V lock =
      if lock.lk_sem.sem_count + 1 < UINT_MOD
      then .done ⟨⟨lock.lk_sem.sem_count + 1⟩, lock.lk_holder⟩ else .panic := by
  unfold lock_release_V
  rw [V_eq _ hlt]
  split_ifs <;> rfl

/-- C3: lock_release on a lock held by thread 7 (count 0).  The state right
after the first statement, in which the permit count has been incremented to 1,
still records thread 7 as holder; the holder is cleared only by the second
statement.  The same order holds for every lock state whose count does not
wrap. -/
theorem lock_release_signals_before_clearing :
    lock_release_states ⟨⟨0⟩, some 7⟩ = [⟨⟨1⟩, some 7⟩, ⟨⟨1⟩, none⟩] ∧
    (∀ lock : Lock, lock.lk_sem.sem_count + 1 < UINT_MOD →
      lock_release_states lock =
        [⟨⟨lock.lk_sem.sem_count + 1⟩, lock.lk_holder⟩, ⟨⟨lock.lk_sem.sem_count + 1⟩, none⟩]) := by
  refine ⟨by decide, ?_⟩
  intro lock h
  unfold lock_release_states
  rw [lock_release_V_eq lock (by omega), if_pos h]
  rfl

/-- C5, as stated, fails: thread 2 releasing a lock held by thread 1, and
thread 1 releasing a second time a lock nobody holds, both complete, increment
the count and leave the holder NULL; no assertion fails. -/
theorem lock_release_by_non_holder_completes :
    (⟨⟨0⟩, some 1⟩ : Lock).lk_holder ≠ some 2 ∧
    lock_release 2 ⟨⟨0⟩, some 1⟩ = .done ⟨⟨1⟩, none⟩ ∧
    (⟨⟨1⟩, none⟩ : Lock).lk_holder ≠ some 1 ∧
    lock_release 1 ⟨⟨1⟩, none⟩ = .done ⟨⟨2⟩, none⟩ := by
  decide

theorem lock_release_eq (cur : Tid) (lock : Lock) (hlt : lock.lk_sem.sem_count < UINT_MOD) :
    lock_release cur lock =
      if lock.lk_sem.sem_count + 1 < UINT_MOD
      then .done ⟨⟨lock.lk_sem.sem_count + 1⟩, none⟩ else .panic := by
  unfold lock_release
  rw [lock_release_V_eq lock hlt]
  split_ifs <;> rfl

/-- C5, amended: lock_release makes no check of the holder.  For every caller
and every lock state (count within the unsigned range), whether or not the caller
is the holder, it completes, increments the count by one and sets the holder to
NULL; the only assertion that can fail is the KASSERT(sem_count > 0) of V when
the count wraps around. -/
theorem lock_release_unchecked (cur : Tid) (lock : Lock)
    (hlt : lock.lk_sem.sem_count < UINT_MOD) :
    lock_release cur lock =
      if lock.lk_sem.sem_count + 1 < UINT_MOD
      then .done ⟨⟨lock.lk_sem.sem_count + 1⟩, none⟩ else .panic :=
  lock_release_eq cur lock hlt

/-- Instance of lock_release_unchecked: thread 2 releases a lock held by
thread 1. -/
theorem lock_release_unchecked_witness :
    (0 : Nat) < UINT_MOD ∧
    lock_release 2 ⟨⟨0⟩, some 1⟩ =
      if 0 + 1 < UINT_MOD then .done ⟨⟨0 + 1⟩, none⟩ else .panic :=
  ⟨by decide, lock_release_unchecked 2 ⟨⟨0⟩, some 1⟩ (by decide)⟩

/-! ## Threads over one lock and one condition variable: invariant -/

theorem SInvC.same {c : Nat} {cv : Cv} {pc : Tid → SPC} (h : SInvC c cv pc) (t : Tid) (p : SPC)
    (hne : pc t ≠ .wait_asleep) (ho : p.owns = (pc t).owns) (hs : p.hasSpin = (pc t).hasSpin) :
    SInvC c cv (Function.update pc t p) := by
  have key : ∀ u, (Function.update pc t p u).owns = (pc u).owns ∧
      (Function.update pc t p u).hasSpin = (pc u).hasSpin := by
    intro u
    by_cases hu : u = t
    · subst hu; simp [ho, hs]
    · simp [Function.update_noteq hu]
  refine ⟨h.count_le, ?_, ?_, h.wchan_nodup, ?_, ?_⟩
  · intro a b ha hb
    rw [(key a).1] at ha
    rw [(key b).1] at hb
    exact h.owner_unique a b ha hb
  · intro a ha
    rw [(key a).1] at ha
    exact h.owner_count a ha
  · intro u hu
    have h1 := h.wchan_asleep u hu
    have : u ≠ t := by rintro rfl; exact hne h1
    simp [Function.update_noteq this, h1]
  · intro u hu
    rw [(key u).2] at hu
    exact h.spin_holder u hu

theorem SInvC.takeP {c c' : Nat} {cv : Cv} {pc : Tid → SPC} (h : SInvC c cv pc) (t : Tid)
    (p : SPC) (hc : c' + 1 = c) (hne : pc t ≠ .wait_asleep)
    (hs : p.hasSpin = (pc t).hasSpin) :
    SInvC c' cv (Function.update pc t p) := by
  have hle := h.count_le
  have hno : ∀ u, (pc u).owns = true → False := fun u hu => by
    have := h.owner_count u hu
    omega
  have key : ∀ u, (Function.update pc t p u).owns = true → u = t := by
    intro u hu
    by_contra hut
    rw [Function.update_noteq hut] at hu
    exact hno u hu
  refine ⟨by omega, ?_, ?_, h.wchan_nodup, ?_, ?_⟩
  · intro a b ha hb
    rw [key a ha, key b hb]
  · intro a _
    omega
  · intro u hu
    have h1 := h.wchan_asleep u hu
    have : u ≠ t := by rintro rfl; exact hne h1
    simp [Function.update_noteq this, h1]
  · intro u hu
    by_cases hut : u = t
    · subst hut
      rw [Function.update_same, hs] at hu
      exact h.spin_holder u hu
    · rw [Function.update_noteq hut] at hu
      exact h.spin_holder u hu

theorem SInvC.giveV {c : Nat} {cv : Cv} {pc : Tid → SPC} (h : SInvC c cv pc) (t : Tid)
    (p : SPC) (hown : (pc t).owns = true) (hp : p.owns = false)
    (hs : p.hasSpin = (pc t).hasSpin) :
    SInvC (c + 1) cv (Function.update pc t p) := by
  have hc := h.owner_count t hown
  have hne : pc t ≠ .wait_asleep := by
    intro h1
    rw [h1] at hown
    simp [SPC.owns] at hown
  have key : ∀ u, (Function.update pc t p u).owns = true → False := by
    intro u hu
    by_cases hut : u = t
    · subst hut
      rw [Function.update_same, hp] at hu
      exact Bool.false_ne_true hu
    · rw [Function.update_noteq hut] at hu
      exact hut (h.owner_unique u t hu hown)
  refine ⟨by omega, ?_, ?_, h.wchan_nodup, ?_, ?_⟩
  · intro a b ha _
    exact (key a ha).elim
  · intro a ha
    exact (key a ha).elim
  · intro u hu
    have h1 := h.wchan_asleep u hu
    have : u ≠ t := by rintro rfl; exact hne h1
    simp [Function.update_noteq this, h1]
  · intro u hu
    by_cases hut : u = t
    · subst hut
      rw [Function.update_same, hs] at hu
      exact h.spin_holder u hu
    · rw [Function.update_noteq hut] at hu
      exact h.spin_holder u hu

theorem SInvC.spinAcq {c : Nat} {cv : Cv} {pc : Tid → SPC} (h : SInvC c cv pc) (t : Tid)
    (p : SPC) (hfree : cv.cv_spinlock = none) (hne : pc t ≠ .wait_asleep)
    (ho : p.owns = (pc t).owns) :
    SInvC c { cv with cv_spinlock := some t } (Function.update pc t p) := by
  have hno : ∀ u, (pc u).hasSpin = true → False := fun u hu => by
    have := h.spin_holder u hu
    rw [hfree] at this
    exact Option.noConfusion this
  have key : ∀ u, (Function.update pc t p u).owns = (pc u).owns := by
    intro u
    by_cases hu : u = t
    · subst hu; simp [ho]
    · simp [Function.update_noteq hu]
  refine ⟨h.count_le, ?_, ?_, h.wchan_nodup, ?_, ?_⟩
  · intro a b ha hb
    rw [key a] at ha
    rw [key b] at hb
    exact h.owner_unique a b ha hb
  · intro a ha
    rw [key a] at ha
    exact h.owner_count a ha
  · intro u hu
    have h1 := h.wchan_asleep u hu
    have : u ≠ t := by rintro rfl; exact hne h1
    simp [Function.update_noteq this, h1]
  · intro u hu
    by_cases hut : u = t
    · subst hut; rfl
    · rw [Function.update_noteq hut] at hu
      exact (hno u hu).elim

theorem SInvC.spinRel {c : Nat} {cv : Cv} {pc : Tid → SPC} (h : SInvC c cv pc) (t : Tid)
    (p : SPC) (wc : List Tid) (hhas : (pc t).hasSpin = true) (hp : p.hasSpin = false)
    (ho : p.owns = (pc t).owns)
    (hnd : wc.Nodup) (hwc : ∀ u ∈ wc, Function.update pc t p u = .wait_asleep) :
    SInvC c { cv_spinlock := none, cv_wchan := wc } (Function.update pc t p) := by
  have key : ∀ u, (Function.update pc t p u).owns = (pc u).owns := by
    intro u
    by_cases hu : u = t
    · subst hu; simp [ho]
    · simp [Function.update_noteq hu]
  have hno : ∀ u, (Function.update pc t p u).hasSpin = true → False := by
    intro u hu
    by_cases hut : u = t
    · subst hut
      rw [Function.update_same, hp] at hu
      exact Bool.false_ne_true hu
    · rw [Function.update_noteq hut] at hu
      have h1 := h.spin_holder u hu
      have h2 := h.spin_holder t hhas
      rw [h1] at h2
      exact hut (Option.some.inj h2)
  refine ⟨h.count_le, ?_, ?_, hnd, hwc, ?_⟩
  · intro a b ha hb
    rw [key a] at ha
    rw [key b] at hb
    exact h.owner_unique a b ha hb
  · intro a ha
    rw [key a] at ha
    exact h.owner_count a ha
  · intro u hu
    exact (hno u hu).elim

theorem SInvC.wake {c : Nat} {cv : Cv} {pc : Tid → SPC} (h : SInvC c cv pc)
    (wc : List Tid) (pc' : Tid → SPC) (hnd : wc.Nodup)
    (hsub : ∀ u ∈ wc, u ∈ cv.cv_wchan ∧ pc' u = .wait_asleep)
    (hpc : ∀ u, pc' u = pc u ∨ (pc u = .wait_asleep ∧ pc' u = .wait_woken)) :
    SInvC c { cv with cv_wchan := wc } pc' := by
  have key : ∀ u, (pc' u).owns = (pc u).owns ∧ (pc' u).hasSpin = (pc u).hasSpin := by
    intro u
    rcases hpc u with h1 | ⟨h1, h2⟩
    · rw [h1]; exact ⟨rfl, rfl⟩
    · rw [h1, h2]; exact ⟨rfl, rfl⟩
  refine ⟨h.count_le, ?_, ?_, hnd, fun u hu => (hsub u hu).2, ?_⟩
  · intro a b ha hb
    rw [(key a).1] at ha
    rw [(key b).1] at hb
    exact h.owner_unique a b ha hb
  · intro a ha
    rw [(key a).1] at ha
    exact h.owner_count a ha
  · intro u hu
    rw [(key u).2] at hu
    exact h.spin_holder u hu

theorem lock_acquire_P_done {lock l : Lock} (h : lock_acquire_P lock = .done l)
    (hlt : lock.lk_sem.sem_count < UINT_MOD) :
    l.lk_sem.sem_count + 1 = lock.lk_sem.sem_count ∧ l.lk_holder = lock.lk_holder := by
  unfold lock_acquire_P at h
  cases hP : P lock.lk_sem with
  | done sem =>
    rw [hP] at h
    simp only [Outcome.andThen, Outcome.done.injEq] at h
    subst h
    exact ⟨(P_done hP hlt).2, rfl⟩
  | blocked => rw [hP] at h; simp [Outcome.andThen] at h
  | panic => rw [hP] at h; simp [Outcome.andThen] at h

theorem lock_release_V_done {lock l : Lock} (h : lock_release_V lock = .done l)
    (hlt : lock.lk_sem.sem_count < UINT_MOD) :
    l.lk_sem.sem_count = lock.lk_sem.sem_count + 1 ∧ l.lk_holder = lock.lk_holder := by
  unfold lock_release_V at h
  cases hV : V lock.lk_sem with
  | done sem =>
    rw [hV] at h
    simp only [Outcome.andThen, Outcome.done.injEq] at h
    subst h
    exact ⟨(V_done hV hlt).1, rfl⟩
  | blocked => rw [hV] at h; simp [Outcome.andThen] at h
  | panic => rw [hV] at h; simp [Outcome.andThen] at h

theorem doP_some {s s' : Synch} {t : Tid} {p : SPC} (h : s.doP t p = some s') :
    ∃ l, lock_acquire_P s.lock = .done l ∧ s' = { s with lock := l }.goto t p := by
  unfold Synch.doP at h
  split at h
  · rename_i l hl
    exact ⟨l, hl, (Option.some.inj h).symm⟩
  · exact Option.noConfusion h

theorem doV_some {s s' : Synch} {t : Tid} {p : SPC} (h : s.doV t p = some s') :
    ∃ l, lock_release_V s.lock = .done l ∧ s' = { s with lock := l }.goto t p := by
  unfold Synch.doV at h
  split at h
  · rename_i l hl
    exact ⟨l, hl, (Option.some.inj h).symm⟩
  · exact Option.noConfusion h

theorem doSpin_some {s s' : Synch} {t : Tid} {p : SPC} (h : s.doSpin t p = some s') :
    s.cv.cv_spinlock = none ∧
    s' = { s with cv := { s.cv with cv_spinlock := some t } }.goto t p := by
  unfold Synch.doSpin spinlock_acquire at h
  cases hsp : s.cv.cv_spinlock with
  | none =>
    rw [hsp] at h
    exact ⟨rfl, (Option.some.inj h).symm⟩
  | some v =>
    rw [hsp] at h
    exact Option.noConfusion h

theorem uint_one_lt {c : Nat} (h : c ≤ 1) : c < UINT_MOD := by
  simp only [UINT_MOD]
  omega

theorem sinv_doP {s s' : Synch} {t : Tid} {p : SPC} (h : SInv s) (hs : s.doP t p = some s')
    (hne : s.pc t ≠ .wait_asleep) (hsp : p.hasSpin = (s.pc t).hasSpin) : SInv s' := by
  obtain ⟨l, hl, rfl⟩ := doP_some hs
  have := (lock_acquire_P_done hl (uint_one_lt h.count_le)).1
  exact SInvC.takeP h t p this hne hsp

theorem sinv_doV {s s' : Synch} {t : Tid} {p : SPC} (h : SInv s) (hs : s.doV t p = some s')
    (hown : (s.pc t).owns = true) (hp : p.owns = false)
    (hsp : p.hasSpin = (s.pc t).hasSpin) : SInv s' := by
  obtain ⟨l, hl, rfl⟩ := doV_some hs
  have h1 := (lock_release_V_done hl (uint_one_lt h.count_le)).1
  have := SInvC.giveV h t p hown hp hsp
  unfold SInv
  simp only [Synch.goto]
  rw [h1]
  exact this

theorem sinv_doSpin {s s' : Synch} {t : Tid} {p : SPC} (h : SInv s)
    (hs : s.doSpin t p = some s') (hne : s.pc t ≠ .wait_asleep)
    (ho : p.owns = (s.pc t).owns) : SInv s' := by
  obtain ⟨hfree, rfl⟩ := doSpin_some hs
  exact SInvC.spinAcq h t p hfree hne ho

theorem not_mem_eraseIdx_of_get? {l : List Tid} {k : Nat} {u : Tid} (hnd : l.Nodup)
    (hk : l.get? k = some u) : u ∉ l.eraseIdx k := by
  intro hmem
  rw [List.mem_eraseIdx_iff_getElem?] at hmem
  obtain ⟨i, hik, hi⟩ := hmem
  rw [← List.get?_eq_getElem?] at hi
  rw [List.get?_eq_some] at hk hi
  obtain ⟨h1, h1'⟩ := hk
  obtain ⟨h2, h2'⟩ := hi
  have := (List.Nodup.get_inj_iff hnd).1 (h1'.trans h2'.symm)
  simp at this
  exact hik this.symm

theorem wakeone_some {pick : Nat} {cv c : Cv} {u : Tid}
    (h : wchan_wakeone pick cv = (some u, c)) :
    ∃ k, cv.cv_wchan.get? k = some u ∧ c = { cv with cv_wchan := cv.cv_wchan.eraseIdx k } := by
  unfold wchan_wakeone at h
  cases hw : cv.cv_wchan with
  | nil => rw [hw] at h; simp at h
  | cons a as =>
    rw [hw] at h
    simp only [Prod.mk.injEq] at h
    exact ⟨_, h.1, h.2.symm⟩

theorem wakeone_none {pick : Nat} {cv c : Cv}
    (h : wchan_wakeone pick cv = (none, c)) : c = cv := by
  unfold wchan_wakeone at h
  cases hw : cv.cv_wchan with
  | nil => rw [hw] at h; simp at h; exact h.symm
  | cons a as =>
    rw [hw] at h
    simp only [Prod.mk.injEq] at h
    have hlt : pick % (a :: as).length < (a :: as).length := Nat.mod_lt _ (by simp)
    have := h.1
    rw [List.get?_eq_none] at this
    omega

theorem wchan_ne_of_pc {s : Synch} {t : Tid} (h : SInv s) (hne : s.pc t ≠ .wait_asleep) :
    t ∉ s.cv.cv_wchan := fun hm => hne (h.wchan_asleep t hm)

theorem sinv_unspin {s : Synch} {t : Tid} {p : SPC} (h : SInv s)
    (hhas : (s.pc t).hasSpin = true) (hp : p.hasSpin = false) (ho : p.owns = (s.pc t).owns) :
    SInv ({ s with cv := spinlock_release s.cv }.goto t p) := by
  have hne : s.pc t ≠ .wait_asleep := by
    intro h1
    rw [h1] at hhas
    simp [SPC.hasSpin] at hhas
  refine SInvC.spinRel h t p s.cv.cv_wchan hhas hp ho h.wchan_nodup ?_
  intro u hu
  have h1 := h.wchan_asleep u hu
  have : u ≠ t := by rintro rfl; exact hne h1
  rw [Function.update_noteq this, h1]

theorem sinv_step {s s' : Synch} {t : Tid} {call : Call} {pick : Nat} (h : SInv s)
    (hs : sstep s t call pick = some s') : SInv s' := by
  unfold sstep at hs
  cases hpc : s.pc t <;> rw [hpc] at hs <;> simp only at hs
  case idle =>
    cases call <;> simp only [Option.some.injEq] at hs <;> first
      | exact Option.noConfusion hs
      | (subst hs; exact SInvC.same h t _ (by simp [hpc]) (by simp [hpc, SPC.owns])
          (by simp [hpc, SPC.hasSpin]))
  case holding =>
    cases call <;> simp only [Option.some.injEq] at hs <;>
      (subst hs; exact SInvC.same h t _ (by simp [hpc]) (by simp [hpc, SPC.owns])
          (by simp [hpc, SPC.hasSpin]))
  case acq_P => exact sinv_doP h hs (by simp [hpc]) (by simp [hpc, SPC.hasSpin])
  case reacq_P => exact sinv_doP h hs (by simp [hpc]) (by simp [hpc, SPC.hasSpin])
  case acq_set =>
    simp only [Option.some.injEq] at hs
    subst hs
    exact SInvC.same h t _ (by simp [hpc]) (by simp [hpc, SPC.owns]) (by simp [hpc, SPC.hasSpin])
  case rel_V =>
    exact sinv_doV h hs (by simp [hpc, SPC.owns]) (by simp [SPC.owns]) (by simp [hpc, SPC.hasSpin])
  case rel_clear =>
    simp only [Option.some.injEq] at hs
    subst hs
    exact SInvC.same h t _ (by simp [hpc]) (by simp [hpc, SPC.owns]) (by simp [hpc, SPC.hasSpin])
  case wait_spin => exact sinv_doSpin h hs (by simp [hpc]) (by simp [hpc, SPC.owns])
  case wait_rel_V =>
    exact sinv_doV h hs (by simp [hpc, SPC.owns]) (by simp [SPC.owns]) (by simp [hpc, SPC.hasSpin])
  case wait_rel_clear =>
    simp only [Option.some.injEq] at hs
    subst hs
    exact SInvC.same h t _ (by simp [hpc]) (by simp [hpc, SPC.owns]) (by simp [hpc, SPC.hasSpin])
  case wait_sleep =>
    simp only [Option.some.injEq] at hs
    subst hs
    have hnm : t ∉ s.cv.cv_wchan := wchan_ne_of_pc h (by simp [hpc])
    refine SInvC.spinRel h t _ (s.cv.cv_wchan ++ [t]) (by simp [hpc, SPC.hasSpin])
      (by simp [SPC.hasSpin]) (by simp [hpc, SPC.owns]) ?_ ?_
    · exact List.Nodup.append h.wchan_nodup (List.nodup_singleton t) (by simpa using hnm)
    · intro u hu
      rw [List.mem_append, List.mem_singleton] at hu
      rcases hu with hu | rfl
      · have h1 := h.wchan_asleep u hu
        have : u ≠ t := by rintro rfl; exact hnm hu
        rw [Function.update_noteq this, h1]
      · rw [Function.update_same]
  case wait_asleep => exact Option.noConfusion hs
  case wait_woken => exact sinv_doSpin h hs (by simp [hpc]) (by simp [hpc, SPC.owns])
  case wait_unspin =>
    simp only [Option.some.injEq] at hs
    subst hs
    exact sinv_unspin h (by simp [hpc, SPC.hasSpin]) (by simp [SPC.hasSpin])
      (by simp [hpc, SPC.owns])
  case wait_acq_P => exact sinv_doP h hs (by simp [hpc]) (by simp [hpc, SPC.hasSpin])
  case wait_acq_set =>
    simp only [Option.some.injEq] at hs
    subst hs
    exact SInvC.same h t _ (by simp [hpc]) (by simp [hpc, SPC.owns]) (by simp [hpc, SPC.hasSpin])
  case sig_spin b => exact sinv_doSpin h hs (by simp [hpc]) (by simp [hpc, SPC.owns])
  case sig_wake b =>
    split at hs
    · rename_i u c hw
      simp only [Option.some.injEq] at hs
      subst hs
      obtain ⟨k, hk, rfl⟩ := wakeone_some hw
      have hu : u ∈ s.cv.cv_wchan := List.get?_mem hk
      have hua : s.pc u = .wait_asleep := h.wchan_asleep u hu
      have hut : t ≠ u := by
        rintro rfl
        rw [hpc] at hua
        exact SPC.noConfusion hua
      have h1 : SInvC s.lock.lk_sem.sem_count
          { s.cv with cv_wchan := s.cv.cv_wchan.eraseIdx k }
          (Function.update s.pc u .wait_woken) := by
        refine SInvC.wake h _ _ (List.Nodup.eraseIdx k h.wchan_nodup) ?_ ?_
        · intro v hv
          have hv' : v ∈ s.cv.cv_wchan := (List.eraseIdx_sublist _ _).subset hv
          have hvu : v ≠ u := by
            rintro rfl
            exact not_mem_eraseIdx_of_get? h.wchan_nodup hk hv
          exact ⟨hv', by rw [Function.update_noteq hvu]; exact h.wchan_asleep v hv'⟩
        · intro v
          by_cases hvu : v = u
          · subst hvu
            exact Or.inr ⟨hua, by rw [Function.update_same]⟩
          · exact Or.inl (by rw [Function.update_noteq hvu])
      exact SInvC.same h1 t _ (by rw [Function.update_noteq hut, hpc]; simp)
        (by rw [Function.update_noteq hut, hpc]; simp [SPC.owns])
        (by rw [Function.update_noteq hut, hpc]; simp [SPC.hasSpin])
    · rename_i c hw
      simp only [Option.some.injEq] at hs
      subst hs
      have := wakeone_none hw
      subst this
      exact SInvC.same h t _ (by simp [hpc]) (by simp [hpc, SPC.owns])
        (by simp [hpc, SPC.hasSpin])
  case sig_unspin b =>
    simp only [Option.some.injEq] at hs
    subst hs
    exact sinv_unspin h (by simp [hpc, SPC.hasSpin]) (by cases b <;> simp [SPC.back, SPC.hasSpin])
      (by cases b <;> simp [hpc, SPC.back, SPC.owns])
  case bc_spin b => exact sinv_doSpin h hs (by simp [hpc]) (by simp [hpc, SPC.owns])
  case bc_wake b =>
    simp only [wchan_wakeall, Option.some.injEq] at hs
    subst hs
    have htn : t ∉ s.cv.cv_wchan := wchan_ne_of_pc h (by simp [hpc])
    have h1 : SInvC s.lock.lk_sem.sem_count { s.cv with cv_wchan := [] }
        (fun u => if u ∈ s.cv.cv_wchan then SPC.wait_woken else s.pc u) := by
      refine SInvC.wake h _ _ List.nodup_nil ?_ ?_
      · intro v hv
        exact absurd hv (List.not_mem_nil v)
      · intro v
        by_cases hv : v ∈ s.cv.cv_wchan
        · exact Or.inr ⟨h.wchan_asleep v hv, by simp [hv]⟩
        · exact Or.inl (by simp [hv])
    exact SInvC.same h1 t _ (by simp [htn, hpc]) (by simp [htn, hpc, SPC.owns])
      (by simp [htn, hpc, SPC.hasSpin])
  case bc_unspin b =>
    simp only [Option.some.injEq] at hs
    subst hs
    exact sinv_unspin h (by simp [hpc, SPC.hasSpin]) (by cases b <;> simp [SPC.back, SPC.hasSpin])
      (by cases b <;> simp [hpc, SPC.back, SPC.owns])

theorem sinv_init : SInv Synch.init := by
  refine ⟨?_, ?_, ?_, ?_, ?_, ?_⟩ <;>
    simp [Synch.init, lock_create, sem_create, cv_create, SPC.owns, SPC.hasSpin]

theorem sinv_of_reach {s : Synch} (h : SReach s) : SInv s := by
  induction h with
  | init => exact sinv_init
  | step t call pick _ hs ih => exact sinv_step ih hs

theorem reach_srun {s s' : Synch} (sched : List (Tid × Call × Nat)) (h : SReach s)
    (hrun : srun s sched = some s') : SReach s' := by
  induction sched generalizing s with
  | nil =>
    simp only [srun, Option.some.injEq] at hrun
    exact hrun ▸ h
  | cons x rest ih =>
    obtain ⟨t, call, pick⟩ := x
    simp only [srun] at hrun
    split at hrun
    · rename_i s1 h1
      exact ih (SReach.step t call pick h h1) hrun
    · exact Option.noConfusion hrun

theorem reach_after {s : Synch} (sched : List (Tid × Call × Nat)) (h : SReach s) :
    SReach (s.after sched) := by
  unfold Synch.after
  cases hrun : srun s sched with
  | none => exact h
  | some s' => exact reach_srun sched h hrun

/-- C2: in every state reachable from lock_create by interleaved steps of the
threads, at most one thread owns the permit (has passed the P of lock_acquire and
not yet run the V of lock_release), in particular at most one thread has
completed lock_acquire without calling lock_release, and lock_do_i_hold is true
for at most one thread. -/
theorem lock_mutual_exclusion (s : Synch) (h : SReach s) :
    (∀ t u, (s.pc t).owns = true → (s.pc u).owns = true → t = u) ∧
    (∀ t u, s.pc t = .holding → s.pc u = .holding → t = u) ∧
    (∀ t u, lock_do_i_hold t s.lock = true → lock_do_i_hold u s.lock = true → t = u) := by
  have hinv := sinv_of_reach h
  refine ⟨hinv.owner_unique, ?_, ?_⟩
  · intro t u ht hu
    exact hinv.owner_unique t u (by rw [ht]; rfl) (by rw [hu]; rfl)
  · intro t u ht hu
    simp only [lock_do_i_hold, decide_eq_true_eq] at ht hu
    rw [ht] at hu
    exact Option.some.inj hu

/-- Instance of lock_mutual_exclusion: after thread 3 has completed
lock_acquire, thread 5 does not own the permit. -/
theorem lock_mutual_exclusion_witness :
    SReach (Synch.init.after [(3, .lock_acquire, 0), (3, .lock_acquire, 0), (3, .lock_acquire, 0)]) ∧
    ((Synch.init.after [(3, .lock_acquire, 0), (3, .lock_acquire, 0), (3, .lock_acquire, 0)]).pc 3).owns
      = true ∧
    ((Synch.init.after [(3, .lock_acquire, 0), (3, .lock_acquire, 0), (3, .lock_acquire, 0)]).pc 5).owns
      ≠ true :=
  ⟨reach_after _ SReach.init, by decide, fun h5 =>
    absurd ((lock_mutual_exclusion _ (reach_after _ SReach.init)).1 3 5 (by decide) h5) (by decide)⟩

theorem stale_clear_pc (u : Tid) :
    (Synch.init.after stale_clear_schedule).pc u =
      if u = 0 then .idle else if u = 1 then .holding else .idle := by
  have hpc : (Synch.init.after stale_clear_schedule).pc =
      Function.update (Function.update (Function.update (Function.update (Function.update
        (Function.update (Function.update (Function.update (Function.update (fun _ => SPC.idle)
          0 .acq_P) 0 .acq_set) 0 .holding) 0 .rel_V) 0 .rel_clear)
          1 .acq_P) 1 .acq_set) 1 .holding) 0 .idle := rfl
  rw [hpc]
  by_cases h0 : u = 0
  · subst h0; rfl
  · by_cases h1 : u = 1
    · subst h1; rfl
    · rw [if_neg h0, if_neg h1]
      simp only [Function.update_noteq h0, Function.update_noteq h1]

/-- C4: the interleaving stale_clear_schedule is reachable and ends with no
thread inside lock_acquire or lock_release, thread 1 having completed
lock_acquire and not called lock_release, the count 0, and yet lk_holder NULL:
lock_do_i_hold is false for the thread that holds the lock. -/
theorem lock_holder_lost :
    SReach (Synch.init.after stale_clear_schedule) ∧
    (∀ u, ((Synch.init.after stale_clear_schedule).pc u).midLock = false) ∧
    (Synch.init.after stale_clear_schedule).pc 1 = .holding ∧
    (Synch.init.after stale_clear_schedule).lock.lk_sem.sem_count = 0 ∧
    (Synch.init.after stale_clear_schedule).lock.lk_holder = none ∧
    lock_do_i_hold 1 (Synch.init.after stale_clear_schedule).lock = false := by
  refine ⟨reach_after _ SReach.init, ?_, by decide, by decide, by decide, by decide⟩
  intro u
  rw [stale_clear_pc]
  split_ifs <;> rfl

/-! ## cv_wait -/

/-- C10: a waiter and a signaller in the usual pattern.  Thread 0 holds the
lock and calls cv_wait: it takes cv_spinlock while the lock is still held, then
lock_release returns the permit (count 1) and clears the holder, then the thread
sleeps on the wait channel with the spinlock released.  Thread 1 acquires the
lock, signals, and runs lock_release up to its V.  Thread 0 wakes, takes the
spinlock back, releases it and runs lock_acquire: cv_wait returns with the
permit taken (count 0) and lk_holder = thread 0.  Then thread 1 runs the last
statement of its lock_release: thread 0 has returned from cv_wait, has run
nothing since and has not released the lock, and lk_holder is NULL, so
lock_do_i_hold is false for it. -/
theorem cv_wait_holder_lost :
    SReach (((((Synch.init.after wait_entry_schedule).after wait_sleep_schedule).after
      signaller_schedule).after wait_return_schedule).after late_clear_schedule) ∧
    (Synch.init.after wait_entry_schedule).pc 0 = .wait_spin ∧
    (Synch.init.after wait_entry_schedule).lock = ⟨⟨0⟩, some 0⟩ ∧
    ((Synch.init.after wait_entry_schedule).after [(0, .cv_wait, 0)]).cv.cv_spinlock = some 0 ∧
    ((Synch.init.after wait_entry_schedule).after [(0, .cv_wait, 0)]).lock = ⟨⟨0⟩, some 0⟩ ∧
    ((Synch.init.after wait_entry_schedule).after wait_sleep_schedule).pc 0 = .wait_asleep ∧
    ((Synch.init.after wait_entry_schedule).after wait_sleep_schedule).lock = ⟨⟨1⟩, none⟩ ∧
    ((Synch.init.after wait_entry_schedule).after wait_sleep_schedule).cv = ⟨none, [0]⟩ ∧
    (((Synch.init.after wait_entry_schedule).after wait_sleep_schedule).after
      signaller_schedule).pc 0 = .wait_woken ∧
    (((Synch.init.after wait_entry_schedule).after wait_sleep_schedule).after
      signaller_schedule).pc 1 = .rel_clear ∧
    (((Synch.init.after wait_entry_schedule).after wait_sleep_schedule).after
      signaller_schedule).lock = ⟨⟨1⟩, some 1⟩ ∧
    ((((Synch.init.after wait_entry_schedule).after wait_sleep_schedule).after
      signaller_schedule).after wait_return_schedule).pc 0 = .holding ∧
    ((((Synch.init.after wait_entry_schedule).after wait_sleep_schedule).after
      signaller_schedule).after wait_return_schedule).lock = ⟨⟨0⟩, some 0⟩ ∧
    ((((Synch.init.after wait_entry_schedule).after wait_sleep_schedule).after
      signaller_schedule).after wait_return_schedule).cv = ⟨none, []⟩ ∧
    (((((Synch.init.after wait_entry_schedule).after wait_sleep_schedule).after
      signaller_schedule).after wait_return_schedule).after late_clear_schedule).pc 0 =
        .holding ∧
    (((((Synch.init.after wait_entry_schedule).after wait_sleep_schedule).after
      signaller_schedule).after wait_return_schedule).after late_clear_schedule).pc 1 = .idle ∧
    (((((Synch.init.after wait_entry_schedule).after wait_sleep_schedule).after
      signaller_schedule).after wait_return_schedule).after late_clear_schedule).lock =
        ⟨⟨0⟩, none⟩ ∧
    lock_do_i_hold 0 (((((Synch.init.after wait_entry_schedule).after
      wait_sleep_schedule).after signaller_schedule).after wait_return_schedule).after
      late_clear_schedule).lock = false := by
  refine ⟨reach_after _ (reach_after _ (reach_after _ (reach_after _
    (reach_after _ SReach.init)))), ?_⟩
  decide

/-! ## The air-balloon scenario: facts about the program text -/

theorem act_acquire {s : Balloon} {r : Nat} {pc n : BPC} {l : LockId}
    (h : action s r pc = .acquire l n) (ho : pc.ordered) :
    l ∉ pc.held ∧ (∀ l', l' ∈ n.held ↔ l' = l ∨ l' ∈ pc.held) ∧
    (∀ l' ∈ pc.held, l'.rank < l.rank) ∧ n.ordered ∧
    pc.inFlight = false ∧ n.inFlight = false ∧ n.severing = pc.severing ∧
    n.sawZero = pc.sawZero := by
  rcases pc with ⟨c, p⟩ | p | p | _ <;> try cases p
  all_goals cases h
  all_goals simp only [BPC.ordered, FkPC.ordered] at ho
  all_goals simp [BPC.held, CutPC.held, FkPC.held, BalPC.held, BPC.ordered, FkPC.ordered,
    BPC.inFlight, BPC.severing, BPC.sawZero, BalPC.sawZero, LockId.rank, NROPES]
  all_goals first
    | exact ho
    | exact ⟨ne_of_gt ho, ho⟩
    | (rename_i i
       have := i.isLt
       simp only [NROPES] at this
       omega)
    | (rename_i i j
       have hi := i.isLt
       have hj := j.isLt
       simp only [NROPES] at hi hj
       exact ⟨⟨by omega, by omega⟩, ho⟩)

theorem act_release {s : Balloon} {r : Nat} {pc n : BPC} {l : LockId}
    (h : action s r pc = .release l n) (ho : pc.ordered) :
    l ∈ pc.held ∧ (∀ l', l' ∈ n.held ↔ l' ≠ l ∧ l' ∈ pc.held) ∧ n.ordered ∧
    pc.inFlight = false ∧ n.inFlight = false ∧ n.severing = pc.severing ∧
    n.sawZero = pc.sawZero := by
  rcases pc with ⟨c, p⟩ | p | p | _ <;> try cases p
  all_goals cases h
  all_goals simp only [BPC.ordered, FkPC.ordered] at ho
  all_goals simp [BPC.held, CutPC.held, FkPC.held, BalPC.held, BPC.ordered, FkPC.ordered,
    BPC.inFlight, BPC.severing, BPC.sawZero, BalPC.sawZero]
  all_goals first
    | (intro l'; aesop)
    | (refine ⟨?_, ho⟩
       intro l'
       have hne := ne_of_lt ho
       aesop)

theorem act_plain {s : Balloon} {r : Nat} {pc n : BPC} {a : Act}
    (h : action s r pc = a) (hp : a.plain n) (ho : pc.ordered) :
    n.held = pc.held ∧ n.ordered ∧ pc.inFlight = false ∧ n.inFlight = false ∧
    (∀ i, n.severing = some i → pc.severing = some i ∨ (s.ropes i).connected = true) ∧
    (n.sawZero = true → pc.sawZero = true ∨ (pc = .bal .read ∧ s.ropes_left = 0)) := by
  rcases hp with rfl | ⟨m, rfl⟩ | ⟨i, v, rfl⟩ | ⟨e, rfl⟩ <;>
    (rcases pc with ⟨c, p⟩ | p | p | _ <;> try cases p) <;> cases h <;>
    simp only [BPC.ordered, FkPC.ordered] at ho
  all_goals try split_ifs
  all_goals simp [BPC.held, CutPC.held, FkPC.held, BalPC.held, BPC.ordered, FkPC.ordered,
    BPC.inFlight, BPC.severing, BPC.sawZero, BalPC.sawZero]
  all_goals first
    | assumption
    | (rename_i hgt; exact lt_of_le_of_ne (not_lt.mp hgt) ho)

theorem act_sever {s : Balloon} {r : Nat} {pc n : BPC} {i : RopeIx}
    (h : action s r pc = .sever i n) :
    n.held = pc.held ∧ n.ordered ∧ LockId.count ∈ pc.held ∧ LockId.rope i ∈ pc.held ∧
    pc.inFlight = false ∧ n.inFlight = true ∧ pc.severing = some i ∧ n.severing = none ∧
    n.sawZero = false := by
  rcases pc with ⟨c, p⟩ | p | p | _ <;> try cases p
  all_goals cases h
  all_goals simp [BPC.held, CutPC.held, BPC.ordered, BPC.inFlight, BPC.severing, BPC.sawZero]

theorem act_decrement {s : Balloon} {r : Nat} {pc n : BPC}
    (h : action s r pc = .decrement n) :
    n.held = pc.held ∧ n.ordered ∧ LockId.count ∈ pc.held ∧
    pc.inFlight = true ∧ n.inFlight = false ∧ n.severing = none ∧ n.sawZero = false := by
  rcases pc with ⟨c, p⟩ | p | p | _ <;> try cases p
  all_goals cases h
  all_goals simp [BPC.held, CutPC.held, BPC.ordered, BPC.inFlight, BPC.severing, BPC.sawZero]

theorem inFlight_held {pc : BPC} (h : pc.inFlight = true) : LockId.count ∈ pc.held := by
  rcases pc with ⟨c, p⟩ | p | p | _ <;> try cases p
  all_goals simp [BPC.inFlight] at h
  all_goals simp [BPC.held, CutPC.held]

theorem severing_held {pc : BPC} {i : RopeIx} (h : pc.severing = some i) :
    LockId.rope i ∈ pc.held := by
  rcases pc with ⟨c, p⟩ | p | p | _ <;> try cases p
  all_goals simp [BPC.severing] at h
  all_goals subst h
  all_goals simp [BPC.held, CutPC.held]

theorem lockedAccess_held {q : TPC} (h : q.lockedAccess = true) : LockId.count ∈ q.held := by
  rcases q with (⟨c, p⟩ | p | p | _) | ⟨l, n⟩ | ⟨l, n⟩ <;> try cases p
  all_goals simp [TPC.lockedAccess] at h
  all_goals simp [TPC.held, TPC.cont, BPC.held, CutPC.held, BalPC.held]

theorem loopRead_held {q : TPC} (h : q.loopRead = true) : q.held = [] := by
  rcases q with (⟨c, p⟩ | p | p | _) | ⟨l, n⟩ | ⟨l, n⟩ <;> try cases p
  all_goals simp [TPC.loopRead] at h
  all_goals simp [TPC.held, TPC.cont, BPC.held, CutPC.held, FkPC.held]

theorem act_cases (a : Act) :
    (∃ l n, a = .acquire l n) ∨ (∃ l n, a = .release l n) ∨ (∃ i n, a = .sever i n) ∨
    (∃ n, a = .decrement n) ∨ (∃ n, a.plain n) ∨ a = .stop := by
  cases a with
  | acquire l n => exact Or.inl ⟨l, n, rfl⟩
  | release l n => exact Or.inr (Or.inl ⟨l, n, rfl⟩)
  | sever i n => exact Or.inr (Or.inr (Or.inl ⟨i, n, rfl⟩))
  | decrement n => exact Or.inr (Or.inr (Or.inr (Or.inl ⟨n, rfl⟩)))
  | goto n => exact Or.inr (Or.inr (Or.inr (Or.inr (Or.inl ⟨n, Or.inl rfl⟩))))
  | kprintf m n =>
    exact Or.inr (Or.inr (Or.inr (Or.inr (Or.inl ⟨n, Or.inr (Or.inl ⟨m, rfl⟩)⟩))))
  | setStake i v n =>
    exact Or.inr (Or.inr (Or.inr (Or.inr (Or.inl ⟨n, Or.inr (Or.inr (Or.inl ⟨i, v, rfl⟩))⟩))))
  | exit e n =>
    exact Or.inr (Or.inr (Or.inr (Or.inr (Or.inl ⟨n, Or.inr (Or.inr (Or.inr ⟨e, rfl⟩))⟩))))
  | stop => exact Or.inr (Or.inr (Or.inr (Or.inr (Or.inr rfl))))

/-! ## The air-balloon scenario: effect of a step -/

theorem getLock_setLock (s : Balloon) (l l' : LockId) (lk : Lock) :
    (s.setLock l lk).getLock l' = if l' = l then lk else s.getLock l' := by
  cases l <;> cases l' <;> simp [Balloon.setLock, Balloon.getLock, Function.update_apply]
  rename_i k k'
  by_cases h : k' = k
  · subst h; simp
  · simp [h]

theorem connected_setLock (s : Balloon) (l : LockId) (lk : Lock) (k : RopeIx) :
    ((s.setLock l lk).ropes k).connected = (s.ropes k).connected := by
  cases l <;> simp [Balloon.setLock, Function.update_apply]
  split_ifs with h
  · subst h; rfl
  · rfl

/-- Storing a lock and moving thread t: positions, locks, connected flags and
ropes_left of the result. -/
theorem setLock_goto_views (s : Balloon) (t : Tid) (l : LockId) (lk : Lock) (q : TPC) :
    ((s.setLock l lk).goto t q).pc = Function.update s.pc t q ∧
    (∀ l', ((s.setLock l lk).goto t q).getLock l' = if l' = l then lk else s.getLock l') ∧
    (∀ k, (((s.setLock l lk).goto t q).ropes k).connected = (s.ropes k).connected) ∧
    ((s.setLock l lk).goto t q).ropes_left = s.ropes_left := by
  refine ⟨?_, ?_, ?_, ?_⟩
  · cases l <;> rfl
  · intro l'
    rw [← getLock_setLock]
    cases l' <;> rfl
  · intro k
    rw [← connected_setLock s l lk k]
    rfl
  · cases l <;> rfl

theorem perform_acquire {s s' : Balloon} {t : Tid} {l : LockId} {n : BPC}
    (h : s.perform t (.acquire l n) = some s') :
    ∃ lk, lock_acquire_P (s.getLock l) = .done lk ∧
      s'.pc = Function.update s.pc t (.in_acquire l n) ∧
      (∀ l', s'.getLock l' = if l' = l then lk else s.getLock l') ∧
      (∀ k, (s'.ropes k).connected = (s.ropes k).connected) ∧
      s'.ropes_left = s.ropes_left := by
  simp only [Balloon.perform] at h
  split at h
  · rename_i lk hlk
    simp only [Option.some.injEq] at h
    subst h
    exact ⟨lk, hlk, setLock_goto_views s t l lk _⟩
  · exact Option.noConfusion h

theorem perform_release {s s' : Balloon} {t : Tid} {l : LockId} {n : BPC}
    (h : s.perform t (.release l n) = some s') :
    ∃ lk, lock_release_V (s.getLock l) = .done lk ∧
      s'.pc = Function.update s.pc t (.in_release l n) ∧
      (∀ l', s'.getLock l' = if l' = l then lk else s.getLock l') ∧
      (∀ k, (s'.ropes k).connected = (s.ropes k).connected) ∧
      s'.ropes_left = s.ropes_left := by
  simp only [Balloon.perform] at h
  split at h
  · rename_i lk hlk
    simp only [Option.some.injEq] at h
    subst h
    exact ⟨lk, hlk, setLock_goto_views s t l lk _⟩
  · exact Option.noConfusion h

theorem perform_plain {s s' : Balloon} {t : Tid} {a : Act} {n : BPC} (hp : a.plain n)
    (h : s.perform t a = some s') :
    s'.pc = Function.update s.pc t (.run n) ∧
    (∀ l, s'.getLock l = s.getLock l) ∧
    (∀ k, (s'.ropes k).connected = (s.ropes k).connected) ∧
    s'.ropes_left = s.ropes_left := by
  rcases hp with rfl | ⟨m, rfl⟩ | ⟨i, v, rfl⟩ | ⟨e, rfl⟩ <;>
    simp only [Balloon.perform, Option.some.injEq] at h <;> subst h
  · exact ⟨rfl, fun l => by cases l <;> rfl, fun _ => rfl, rfl⟩
  · exact ⟨rfl, fun l => by cases l <;> rfl, fun _ => rfl, rfl⟩
  · refine ⟨rfl, ?_, ?_, rfl⟩
    · intro l
      cases l <;> simp [Balloon.getLock, Balloon.goto, Function.update_apply]
      split_ifs with hk
      · subst hk; rfl
      · rfl
    · intro k
      simp only [Balloon.goto, Function.update_apply]
      split_ifs with hk
      · subst hk; rfl
      · rfl
  · exact ⟨by cases e <;> rfl, fun l => by cases e <;> cases l <;> rfl,
      fun _ => by cases e <;> rfl, by cases e <;> rfl⟩

theorem perform_sever {s s' : Balloon} {t : Tid} {i : RopeIx} {n : BPC}
    (h : s.perform t (.sever i n) = some s') :
    s'.pc = Function.update s.pc t (.run n) ∧
    (∀ l, s'.getLock l = s.getLock l) ∧
    (∀ k, (s'.ropes k).connected = if k = i then false else (s.ropes k).connected) ∧
    s'.ropes_left = s.ropes_left := by
  simp only [Balloon.perform, Option.some.injEq] at h
  subst h
  refine ⟨rfl, ?_, ?_, rfl⟩
  · intro l
    cases l <;> simp [Balloon.getLock, Balloon.goto, Function.update_apply]
    split_ifs with hk
    · subst hk; rfl
    · rfl
  · intro k
    simp only [Balloon.goto, Function.update_apply]
    split_ifs with hk
    · rfl
    · rfl

theorem perform_decrement {s s' : Balloon} {t : Tid} {n : BPC}
    (h : s.perform t (.decrement n) = some s') :
    s'.pc = Function.update s.pc t (.run n) ∧
    (∀ l, s'.getLock l = s.getLock l) ∧
    (∀ k, (s'.ropes k).connected = (s.ropes k).connected) ∧
    s'.ropes_left = s.ropes_left - 1 := by
  simp only [Balloon.perform, Option.some.injEq] at h
  subst h
  exact ⟨rfl, fun l => by cases l <;> rfl, fun _ => rfl, rfl⟩

/-- The second statement of a lock function changes only the holder field of
the lock and returns to the caller. -/
theorem bstep_in_lock {s s' : Balloon} {t : Tid} {r : Nat} {l : LockId} {n : BPC}
    (hq : s.pc t = .in_acquire l n ∨ s.pc t = .in_release l n)
    (h : bstep s t r = some s') :
    s'.pc = Function.update s.pc t (.run n) ∧
    (∀ l', (s'.getLock l').lk_sem = (s.getLock l').lk_sem) ∧
    (∀ k, (s'.ropes k).connected = (s.ropes k).connected) ∧
    s'.ropes_left = s.ropes_left := by
  unfold bstep at h
  rcases hq with hq | hq <;> rw [hq] at h <;> simp only [Option.some.injEq] at h <;> subst h
  · obtain ⟨h1, h2, h3, h4⟩ := setLock_goto_views s t l (lock_acquire_set t (s.getLock l)) (.run n)
    refine ⟨h1, fun l' => ?_, h3, h4⟩
    rw [h2]
    split_ifs with hl
    · subst hl; rfl
    · rfl
  · obtain ⟨h1, h2, h3, h4⟩ := setLock_goto_views s t l (lock_release_clear (s.getLock l)) (.run n)
    refine ⟨h1, fun l' => ?_, h3, h4⟩
    rw [h2]
    split_ifs with hl
    · subst hl; rfl
    · rfl

/-! ## The air-balloon scenario: the invariant -/

theorem cc_congr {s s' : Balloon}
    (h : ∀ k, (s'.ropes k).connected = (s.ropes k).connected) :
    s'.connectedCount = s.connectedCount := by
  unfold Balloon.connectedCount
  congr 1
  ext k
  simp [h k]

theorem cc_sever {s s' : Balloon} {i : RopeIx}
    (h : ∀ k, (s'.ropes k).connected = if k = i then false else (s.ropes k).connected)
    (hi : (s.ropes i).connected = true) :
    s'.connectedCount + 1 = s.connectedCount := by
  unfold Balloon.connectedCount
  have hset : (Finset.univ.filter fun k : RopeIx => (s'.ropes k).connected = true) =
      (Finset.univ.filter fun k : RopeIx => (s.ropes k).connected = true).erase i := by
    ext k
    simp only [Finset.mem_filter, Finset.mem_univ, true_and, Finset.mem_erase, h k]
    by_cases hk : k = i
    · simp [hk]
    · simp [hk]
  rw [hset, Finset.card_erase_of_mem (by simp [hi])]
  have : 0 < (Finset.univ.filter fun k : RopeIx => (s.ropes k).connected = true).card :=
    Finset.card_pos.mpr ⟨i, by simp [hi]⟩
  omega

theorem cc_zero {s : Balloon} (h : s.connectedCount = 0) (k : RopeIx) :
    (s.ropes k).connected = false := by
  unfold Balloon.connectedCount at h
  rw [Finset.card_eq_zero] at h
  have : k ∉ Finset.univ.filter fun k : RopeIx => (s.ropes k).connected = true := by
    rw [h]; simp
  simpa using this

theorem count_lt_uint {s : Balloon} (h : BInv s) (l : LockId) :
    (s.getLock l).lk_sem.sem_count < UINT_MOD :=
  uint_one_lt (h.count_le l)

theorem no_flight_of_holder {s : Balloon} (h : BInv s) {t : Tid}
    (ht : s.holds t .count) (hf : (s.pc t).cont.inFlight = false) :
    ∀ u, (s.pc u).cont.inFlight = false := by
  intro u
  by_contra hu
  have hu' : (s.pc u).cont.inFlight = true := by simpa using hu
  have := h.owner_unique t u .count ht (inFlight_held hu')
  subst this
  rw [hf] at hu'
  exact Bool.false_ne_true hu'

theorem holds_update {s s' : Balloon} {t u : Tid} {q : TPC}
    (hpc : s'.pc = Function.update s.pc t q) (l : LockId) :
    s'.holds u l ↔ if u = t then l ∈ q.held else s.holds u l := by
  unfold Balloon.holds
  rw [hpc]
  by_cases hu : u = t
  · subst hu
    rw [Function.update_same, if_pos rfl]
  · rw [Function.update_noteq hu, if_neg hu]

theorem cont_update {s s' : Balloon} {t : Tid} {q : TPC}
    (hpc : s'.pc = Function.update s.pc t q) (u : Tid) :
    (s'.pc u).cont = if u = t then q.cont else (s.pc u).cont := by
  rw [hpc]
  by_cases hu : u = t
  · subst hu
    rw [Function.update_same, if_pos rfl]
  · rw [Function.update_noteq hu, if_neg hu]

theorem linv_same {s s' : Balloon} {t : Tid} {q : TPC} (h : BInv s)
    (hpc : s'.pc = Function.update s.pc t q)
    (hcount : ∀ l, (s'.getLock l).lk_sem.sem_count = (s.getLock l).lk_sem.sem_count)
    (hheld : ∀ l, l ∈ q.held ↔ l ∈ (s.pc t).held) (ho : q.cont.ordered) :
    (∀ l, (s'.getLock l).lk_sem.sem_count ≤ 1) ∧
    (∀ a b l, s'.holds a l → s'.holds b l → a = b) ∧
    (∀ a l, s'.holds a l → (s'.getLock l).lk_sem.sem_count = 0) ∧
    (∀ l, (s'.getLock l).lk_sem.sem_count = 0 → ∃ a, s'.holds a l) ∧
    (∀ a, (s'.pc a).cont.ordered) := by
  have key : ∀ u l, s'.holds u l ↔ s.holds u l := by
    intro u l
    rw [holds_update hpc]
    split_ifs with hu
    · subst hu
      exact hheld l
    · exact Iff.rfl
  refine ⟨?_, ?_, ?_, ?_, ?_⟩
  · intro l
    rw [hcount]
    exact h.count_le l
  · intro a b l ha hb
    exact h.owner_unique a b l ((key a l).1 ha) ((key b l).1 hb)
  · intro a l ha
    rw [hcount]
    exact h.owner_count a l ((key a l).1 ha)
  · intro l hl
    rw [hcount] at hl
    obtain ⟨a, ha⟩ := h.count_owner l hl
    exact ⟨a, (key a l).2 ha⟩
  · intro a
    rw [cont_update hpc]
    split_ifs
    · exact ho
    · exact h.ordered a

theorem linv_acquire {s s' : Balloon} {t : Tid} {q : TPC} {l : LockId} {lk : Lock}
    (h : BInv s) (hpc : s'.pc = Function.update s.pc t q)
    (hP : lock_acquire_P (s.getLock l) = .done lk)
    (hl : ∀ l', s'.getLock l' = if l' = l then lk else s.getLock l')
    (hheld : ∀ l', l' ∈ q.held ↔ l' = l ∨ l' ∈ (s.pc t).held) (ho : q.cont.ordered) :
    (∀ l, (s'.getLock l).lk_sem.sem_count ≤ 1) ∧
    (∀ a b l, s'.holds a l → s'.holds b l → a = b) ∧
    (∀ a l, s'.holds a l → (s'.getLock l).lk_sem.sem_count = 0) ∧
    (∀ l, (s'.getLock l).lk_sem.sem_count = 0 → ∃ a, s'.holds a l) ∧
    (∀ a, (s'.pc a).cont.ordered) := by
  have hc := (lock_acquire_P_done hP (count_lt_uint h l)).1
  have hle := h.count_le l
  have hc0 : lk.lk_sem.sem_count = 0 := by omega
  have hfree : ∀ u, ¬ s.holds u l := by
    intro u hu
    have := h.owner_count u l hu
    omega
  have hcnt : ∀ l', l' ≠ l →
      (s'.getLock l').lk_sem.sem_count = (s.getLock l').lk_sem.sem_count := by
    intro l' hne
    rw [hl, if_neg hne]
  have hcl : (s'.getLock l).lk_sem.sem_count = 0 := by
    rw [hl, if_pos rfl]
    exact hc0
  have key : ∀ u l', s'.holds u l' ↔ (u = t ∧ l' = l) ∨ s.holds u l' := by
    intro u l'
    rw [holds_update hpc]
    split_ifs with hu
    · subst hu
      rw [hheld]
      simp [Balloon.holds]
    · simp [hu]
  refine ⟨?_, ?_, ?_, ?_, ?_⟩
  · intro l'
    by_cases hll : l' = l
    · subst hll
      rw [hcl]
      omega
    · rw [hcnt l' hll]
      exact h.count_le l'
  · intro a b l' ha hb
    rcases (key a l').1 ha with ⟨ha1, ha2⟩ | ha1
    · rcases (key b l').1 hb with ⟨hb1, _⟩ | hb1
      · rw [ha1, hb1]
      · subst ha2
        exact absurd hb1 (hfree b)
    · rcases (key b l').1 hb with ⟨_, hb2⟩ | hb1
      · subst hb2
        exact absurd ha1 (hfree a)
      · exact h.owner_unique a b l' ha1 hb1
  · intro a l' ha
    rcases (key a l').1 ha with ⟨_, ha2⟩ | ha1
    · subst ha2
      exact hcl
    · have hne : l' ≠ l := by
        rintro rfl
        exact hfree a ha1
      rw [hcnt l' hne]
      exact h.owner_count a l' ha1
  · intro l' hl0
    by_cases hll : l' = l
    · subst hll
      exact ⟨t, (key t l').2 (Or.inl ⟨rfl, rfl⟩)⟩
    · rw [hcnt l' hll] at hl0
      obtain ⟨a, ha⟩ := h.count_owner l' hl0
      exact ⟨a, (key a l').2 (Or.inr ha)⟩
  · intro a
    rw [cont_update hpc]
    split_ifs
    · exact ho
    · exact h.ordered a

theorem linv_release {s s' : Balloon} {t : Tid} {q : TPC} {l : LockId} {lk : Lock}
    (h : BInv s) (hpc : s'.pc = Function.update s.pc t q)
    (hV : lock_release_V (s.getLock l) = .done lk)
    (hl : ∀ l', s'.getLock l' = if l' = l then lk else s.getLock l')
    (hmem : l ∈ (s.pc t).held)
    (hheld : ∀ l', l' ∈ q.held ↔ l' ≠ l ∧ l' ∈ (s.pc t).held) (ho : q.cont.ordered) :
    (∀ l, (s'.getLock l).lk_sem.sem_count ≤ 1) ∧
    (∀ a b l, s'.holds a l → s'.holds b l → a = b) ∧
    (∀ a l, s'.holds a l → (s'.getLock l).lk_sem.sem_count = 0) ∧
    (∀ l, (s'.getLock l).lk_sem.sem_count = 0 → ∃ a, s'.holds a l) ∧
    (∀ a, (s'.pc a).cont.ordered) := by
  have hc := (lock_release_V_done hV (count_lt_uint h l)).1
  have hown : s.holds t l := hmem
  have hc0 := h.owner_count t l hown
  have hc1 : lk.lk_sem.sem_count = 1 := by omega
  have hcnt : ∀ l', l' ≠ l →
      (s'.getLock l').lk_sem.sem_count = (s.getLock l').lk_sem.sem_count := by
    intro l' hne
    rw [hl, if_neg hne]
  have hcl : (s'.getLock l).lk_sem.sem_count = 1 := by
    rw [hl, if_pos rfl]
    exact hc1
  have key : ∀ u l', s'.holds u l' ↔ l' ≠ l ∧ s.holds u l' := by
    intro u l'
    rw [holds_update hpc]
    split_ifs with hu
    · subst hu
      rw [hheld]
      exact Iff.rfl
    · constructor
      · intro hh
        refine ⟨?_, hh⟩
        rintro rfl
        exact hu (h.owner_unique u t l' hh hown)
      · exact fun hh => hh.2
  refine ⟨?_, ?_, ?_, ?_, ?_⟩
  · intro l'
    by_cases hll : l' = l
    · subst hll
      rw [hcl]
    · rw [hcnt l' hll]
      exact h.count_le l'
  · intro a b l' ha hb
    exact h.owner_unique a b l' ((key a l').1 ha).2 ((key b l').1 hb).2
  · intro a l' ha
    obtain ⟨hne, ha1⟩ := (key a l').1 ha
    rw [hcnt l' hne]
    exact h.owner_count a l' ha1
  · intro l' hl0
    have hne : l' ≠ l := by
      rintro rfl
      rw [hcl] at hl0
      exact absurd hl0 (by decide)
    rw [hcnt l' hne] at hl0
    obtain ⟨a, ha⟩ := h.count_owner l' hl0
    exact ⟨a, (key a l').2 ⟨hne, ha⟩⟩
  · intro a
    rw [cont_update hpc]
    split_ifs
    · exact ho
    · exact h.ordered a

theorem rinv_same {s s' : Balloon} {t : Tid} {q : TPC} (h : BInv s)
    (hpc : s'.pc = Function.update s.pc t q)
    (hconn : ∀ k, (s'.ropes k).connected = (s.ropes k).connected)
    (hrl : s'.ropes_left = s.ropes_left)
    (hf : q.cont.inFlight = (s.pc t).cont.inFlight)
    (hsev : ∀ i, q.cont.severing = some i →
      (s.pc t).cont.severing = some i ∨ (s.ropes i).connected = true)
    (hz : q.cont.sawZero = true →
      (s.pc t).cont.sawZero = true ∨ (s.pc t = .run (.bal .read) ∧ s.ropes_left = 0)) :
    (∀ u i, (s'.pc u).cont.severing = some i → (s'.ropes i).connected = true) ∧
    ((∀ u, (s'.pc u).cont.inFlight = false) → s'.ropes_left = s'.connectedCount) ∧
    (∀ u, (s'.pc u).cont.inFlight = true → s'.ropes_left = s'.connectedCount + 1) ∧
    (∀ u, (s'.pc u).cont.sawZero = true → s'.connectedCount = 0) := by
  have hcc := cc_congr hconn
  have hfl : ∀ u, (s'.pc u).cont.inFlight = (s.pc u).cont.inFlight := by
    intro u
    rw [cont_update hpc]
    split_ifs with hu
    · subst hu
      exact hf
    · rfl
  refine ⟨?_, ?_, ?_, ?_⟩
  · intro u i hs
    rw [hconn]
    rw [cont_update hpc] at hs
    split_ifs at hs with hu
    · subst hu
      rcases hsev i hs with h1 | h1
      · exact h.severing_connected u i h1
      · exact h1
    · exact h.severing_connected u i hs
  · intro hall
    rw [hrl, hcc]
    exact h.count_idle (fun u => by rw [← hfl]; exact hall u)
  · intro u hu
    rw [hrl, hcc]
    exact h.count_flight u (by rw [← hfl]; exact hu)
  · intro u hu
    rw [hcc]
    rw [cont_update hpc] at hu
    split_ifs at hu with hut
    · subst hut
      rcases hz hu with h1 | ⟨h1, h2⟩
      · exact h.zero_seen u h1
      · have hheld : s.holds u .count := by
          unfold Balloon.holds
          rw [h1]
          simp [TPC.held, TPC.cont, BPC.held, BalPC.held]
        have hnf : (s.pc u).cont.inFlight = false := by
          rw [h1]
          rfl
        have := h.count_idle (no_flight_of_holder h hheld hnf)
        rw [h2] at this
        exact_mod_cast this.symm
    · exact h.zero_seen u hu

theorem rinv_sever {s s' : Balloon} {t : Tid} {q : TPC} {i : RopeIx} (h : BInv s)
    (hpc : s'.pc = Function.update s.pc t q)
    (hconn : ∀ k, (s'.ropes k).connected = if k = i then false else (s.ropes k).connected)
    (hrl : s'.ropes_left = s.ropes_left)
    (hcount : s.holds t .count) (hrope : s.holds t (.rope i))
    (hf : (s.pc t).cont.inFlight = false) (hf' : q.cont.inFlight = true)
    (hsev : (s.pc t).cont.severing = some i) (hsev' : q.cont.severing = none)
    (hz' : q.cont.sawZero = false) :
    (∀ u k, (s'.pc u).cont.severing = some k → (s'.ropes k).connected = true) ∧
    ((∀ u, (s'.pc u).cont.inFlight = false) → s'.ropes_left = s'.connectedCount) ∧
    (∀ u, (s'.pc u).cont.inFlight = true → s'.ropes_left = s'.connectedCount + 1) ∧
    (∀ u, (s'.pc u).cont.sawZero = true → s'.connectedCount = 0) := by
  have hi := h.severing_connected t i hsev
  have hcc := cc_sever hconn hi
  have hidle := h.count_idle (no_flight_of_holder h hcount hf)
  have hself : (s'.pc t).cont = q.cont := by rw [cont_update hpc, if_pos rfl]
  refine ⟨?_, ?_, ?_, ?_⟩
  · intro u k hs
    rw [cont_update hpc] at hs
    split_ifs at hs with hu
    · rw [hsev'] at hs
      exact Option.noConfusion hs
    · have hk : k ≠ i := by
        rintro rfl
        exact hu (h.owner_unique u t _ (severing_held hs) hrope)
      rw [hconn, if_neg hk]
      exact h.severing_connected u k hs
  · intro hall
    have := hall t
    rw [hself, hf'] at this
    exact absurd this (by simp)
  · intro u _
    rw [hrl, hidle]
    omega
  · intro u hu
    rw [cont_update hpc] at hu
    split_ifs at hu with hut
    · rw [hz'] at hu
      exact absurd hu (by simp)
    · have := h.zero_seen u hu
      omega

theorem rinv_decrement {s s' : Balloon} {t : Tid} {q : TPC} (h : BInv s)
    (hpc : s'.pc = Function.update s.pc t q)
    (hconn : ∀ k, (s'.ropes k).connected = (s.ropes k).connected)
    (hrl : s'.ropes_left = s.ropes_left - 1)
    (hf : (s.pc t).cont.inFlight = true) (hf' : q.cont.inFlight = false)
    (hsev' : q.cont.severing = none) (hz' : q.cont.sawZero = false) :
    (∀ u k, (s'.pc u).cont.severing = some k → (s'.ropes k).connected = true) ∧
    ((∀ u, (s'.pc u).cont.inFlight = false) → s'.ropes_left = s'.connectedCount) ∧
    (∀ u, (s'.pc u).cont.inFlight = true → s'.ropes_left = s'.connectedCount + 1) ∧
    (∀ u, (s'.pc u).cont.sawZero = true → s'.connectedCount = 0) := by
  have hcc := cc_congr hconn
  have hfl := h.count_flight t hf
  have hnone : ∀ u, (s'.pc u).cont.inFlight = false := by
    intro u
    rw [cont_update hpc]
    split_ifs with hu
    · exact hf'
    · by_contra hc
      have hc' : (s.pc u).cont.inFlight = true := by simpa using hc
      exact hu (h.owner_unique u t _ (inFlight_held hc') (inFlight_held hf))
  refine ⟨?_, ?_, ?_, ?_⟩
  · intro u k hs
    rw [hconn]
    rw [cont_update hpc] at hs
    split_ifs at hs with hu
    · rw [hsev'] at hs
      exact Option.noConfusion hs
    · exact h.severing_connected u k hs
  · intro _
    rw [hrl, hcc, hfl]
    omega
  · intro u hu
    rw [hnone u] at hu
    exact absurd hu (by simp)
  · intro u hu
    rw [hcc]
    rw [cont_update hpc] at hu
    split_ifs at hu with hut
    · rw [hz'] at hu
      exact absurd hu (by simp)
    · exact h.zero_seen u hu

theorem binv_step {s s' : Balloon} {t : Tid} {r : Nat} (h : BInv s)
    (hs : bstep s t r = some s') : BInv s' := by
  cases hq : s.pc t with
  | run p =>
    have hs0 := hs
    unfold bstep at hs
    rw [hq] at hs
    simp only at hs
    have ho : p.ordered := by
      have := h.ordered t
      rw [hq] at this
      exact this
    have hcont : (s.pc t).cont = p := by rw [hq]; rfl
    have hheld0 : (s.pc t).held = p.held := by rw [hq]; rfl
    rcases act_cases (action s r p) with ⟨l, n, ha⟩ | ⟨l, n, ha⟩ | ⟨i, n, ha⟩ | ⟨n, ha⟩ |
        ⟨n, ha⟩ | ha
    · rw [ha] at hs
      obtain ⟨lk, hacq, hpc, hl, hconn, hrl⟩ := perform_acquire hs
      obtain ⟨_, f2, _, f4, f5, f6, f7, f8⟩ := act_acquire ha ho
      obtain ⟨l1, l2, l3, l4, l5⟩ := linv_acquire h hpc hacq hl
        (fun l' => by rw [hheld0]; exact f2 l') f4
      obtain ⟨r1, r2, r3, r4⟩ := rinv_same h hpc hconn hrl (by rw [hcont, f5]; exact f6)
        (fun i hi => Or.inl (by rw [hcont, ← f7]; exact hi))
        (fun hz => Or.inl (by rw [hcont, ← f8]; exact hz))
      exact ⟨l1, l2, l3, l4, l5, r1, r2, r3, r4⟩
    · rw [ha] at hs
      obtain ⟨lk, hrel, hpc, hl, hconn, hrl⟩ := perform_release hs
      obtain ⟨f1, f2, f4, f5, f6, f7, f8⟩ := act_release ha ho
      obtain ⟨l1, l2, l3, l4, l5⟩ := linv_release h hpc hrel hl (by rw [hheld0]; exact f1)
        (fun l' => by rw [hheld0]; exact f2 l') f4
      obtain ⟨r1, r2, r3, r4⟩ := rinv_same h hpc hconn hrl (by rw [hcont, f5]; exact f6)
        (fun i hi => Or.inl (by rw [hcont, ← f7]; exact hi))
        (fun hz => Or.inl (by rw [hcont, ← f8]; exact hz))
      exact ⟨l1, l2, l3, l4, l5, r1, r2, r3, r4⟩
    · rw [ha] at hs
      obtain ⟨hpc, hl, hconn, hrl⟩ := perform_sever hs
      obtain ⟨f1, f2, f3, f4, f5, f6, f7, f8, f9⟩ := act_sever ha
      obtain ⟨l1, l2, l3, l4, l5⟩ := linv_same h hpc (fun l => by rw [hl])
        (fun l => by rw [hheld0]; show l ∈ n.held ↔ _; rw [f1]) f2
      obtain ⟨r1, r2, r3, r4⟩ := rinv_sever h hpc hconn hrl
        (show LockId.count ∈ (s.pc t).held by rw [hheld0]; exact f3)
        (show LockId.rope i ∈ (s.pc t).held by rw [hheld0]; exact f4)
        (by rw [hcont]; exact f5) f6 (by rw [hcont]; exact f7) f8 f9
      exact ⟨l1, l2, l3, l4, l5, r1, r2, r3, r4⟩
    · rw [ha] at hs
      obtain ⟨hpc, hl, hconn, hrl⟩ := perform_decrement hs
      obtain ⟨f1, f2, _, f4, f5, f6, f7⟩ := act_decrement ha
      obtain ⟨l1, l2, l3, l4, l5⟩ := linv_same h hpc (fun l => by rw [hl])
        (fun l => by rw [hheld0]; show l ∈ n.held ↔ _; rw [f1]) f2
      obtain ⟨r1, r2, r3, r4⟩ := rinv_decrement h hpc hconn hrl (by rw [hcont]; exact f4) f5 f6 f7
      exact ⟨l1, l2, l3, l4, l5, r1, r2, r3, r4⟩
    · obtain ⟨hpc, hl, hconn, hrl⟩ := perform_plain ha hs
      obtain ⟨f1, f2, f3, f4, f5, f6⟩ := act_plain rfl ha ho
      obtain ⟨l1, l2, l3, l4, l5⟩ := linv_same h hpc (fun l => by rw [hl])
        (fun l => by rw [hheld0]; show l ∈ n.held ↔ _; rw [f1]) f2
      obtain ⟨r1, r2, r3, r4⟩ := rinv_same h hpc hconn hrl (by rw [hcont, f3]; exact f4)
        (fun i hi => by rw [hcont]; exact f5 i hi)
        (fun hz => by
          rcases f6 hz with h1 | ⟨h1, h2⟩
          · exact Or.inl (by rw [hcont]; exact h1)
          · exact Or.inr ⟨by rw [hq, h1], h2⟩)
      exact ⟨l1, l2, l3, l4, l5, r1, r2, r3, r4⟩
    · rw [ha] at hs
      exact Option.noConfusion hs
  | in_acquire l n =>
    obtain ⟨hpc, hl, hconn, hrl⟩ := bstep_in_lock (Or.inl hq) hs
    obtain ⟨l1, l2, l3, l4, l5⟩ := linv_same h hpc (fun l' => by rw [hl])
      (fun l' => by rw [hq]; exact Iff.rfl) (by have := h.ordered t; rw [hq] at this; exact this)
    obtain ⟨r1, r2, r3, r4⟩ := rinv_same h hpc hconn hrl (by rw [hq]; rfl)
      (fun i hi => Or.inl (by rw [hq]; exact hi)) (fun hz => Or.inl (by rw [hq]; exact hz))
    exact ⟨l1, l2, l3, l4, l5, r1, r2, r3, r4⟩
  | in_release l n =>
    obtain ⟨hpc, hl, hconn, hrl⟩ := bstep_in_lock (Or.inr hq) hs
    obtain ⟨l1, l2, l3, l4, l5⟩ := linv_same h hpc (fun l' => by rw [hl])
      (fun l' => by rw [hq]; exact Iff.rfl) (by have := h.ordered t; rw [hq] at this; exact this)
    obtain ⟨r1, r2, r3, r4⟩ := rinv_same h hpc hconn hrl (by rw [hq]; rfl)
      (fun i hi => Or.inl (by rw [hq]; exact hi)) (fun hz => Or.inl (by rw [hq]; exact hz))
    exact ⟨l1, l2, l3, l4, l5, r1, r2, r3, r4⟩

theorem startPc_held (t : Tid) : (startPc t).held = [] := by
  unfold startPc
  split_ifs <;> rfl

theorem binv_init : BInv Balloon.init := by
  have hlock : ∀ l, Balloon.init.getLock l = lock_create := by
    intro l
    cases l <;> rfl
  have hcc : Balloon.init.connectedCount = NROPES := by
    unfold Balloon.connectedCount
    simp [Balloon.init]
  have hpc : ∀ t, (Balloon.init.pc t).cont = startPc t := fun _ => rfl
  have hnone : ∀ t l, ¬ Balloon.init.holds t l := by
    intro t l hh
    have : l ∈ (startPc t).held := hh
    rw [startPc_held] at this
    exact absurd this (List.not_mem_nil l)
  refine ⟨?_, ?_, ?_, ?_, ?_, ?_, ?_, ?_, ?_⟩
  · intro l
    rw [hlock]
    exact le_refl 1
  · intro t u l ht _
    exact absurd ht (hnone t l)
  · intro t l ht
    exact absurd ht (hnone t l)
  · intro l hl
    rw [hlock] at hl
    exact absurd hl (by decide)
  · intro t
    rw [hpc]
    unfold startPc
    split_ifs <;> trivial
  · intro t i _
    rfl
  · intro _
    rw [hcc]
    rfl
  · intro t ht
    rw [hpc] at ht
    unfold startPc at ht
    split_ifs at ht <;> simp [BPC.inFlight] at ht
  · intro t ht
    rw [hpc] at ht
    unfold startPc at ht
    split_ifs at ht <;> simp [BPC.sawZero, BalPC.sawZero] at ht

theorem binv_of_reach {s : Balloon} (h : BReach s) : BInv s := by
  induction h with
  | init => exact binv_init
  | step t r _ hs ih => exact binv_step ih hs

/-! ## The air-balloon scenario: deadlock freedom -/

theorem act_acquire_indep {s : Balloon} {r r' : Nat} {pc n : BPC} {l : LockId}
    (h : action s r pc = .acquire l n) : action s r' pc = .acquire l n := by
  rcases pc with ⟨c, p⟩ | p | p | _ <;> try cases p
  all_goals cases h
  all_goals rfl

theorem act_stop {s : Balloon} {r : Nat} {pc : BPC} (h : action s r pc = .stop) :
    pc = .finished := by
  rcases pc with ⟨c, p⟩ | p | p | _ <;> try cases p
  all_goals first
    | rfl
    | cases h

theorem rank_le (l : LockId) : l.rank ≤ NROPES + 1 := by
  cases l with
  | rope k =>
    have := k.isLt
    simp only [LockId.rank]
    omega
  | count => simp [LockId.rank]
  | print => simp [LockId.rank]

theorem waiting_some {s : Balloon} {t : Tid} {l : LockId} (h : s.waiting t = some l) :
    (∃ p n, s.pc t = .run p ∧ action s 0 p = .acquire l n) ∧
    (s.getLock l).lk_sem.sem_count = 0 := by
  unfold Balloon.waiting at h
  cases hq : s.pc t with
  | run p =>
    rw [hq] at h
    simp only at h
    split at h
    · rename_i l1 n ha
      split_ifs at h with hc
      simp only [Option.some.injEq] at h
      subst h
      exact ⟨⟨p, n, rfl, ha⟩, hc⟩
    · exact Option.noConfusion h
  | in_acquire l1 n => rw [hq] at h; exact Option.noConfusion h
  | in_release l1 n => rw [hq] at h; exact Option.noConfusion h

/-- A thread blocked on a lock holds only locks of smaller rank. -/
theorem waiting_rank {s : Balloon} (h : BInv s) {t : Tid} {l l' : LockId}
    (hw : s.waiting t = some l) (hh : s.holds t l') : l'.rank < l.rank := by
  obtain ⟨⟨p, n, hq, ha⟩, _⟩ := waiting_some hw
  have ho : p.ordered := by
    have := h.ordered t
    rw [hq] at this
    exact this
  have hm : l' ∈ p.held := by
    unfold Balloon.holds at hh
    rw [hq] at hh
    exact hh
  exact (act_acquire ha ho).2.2.1 l' hm

theorem waitsFor_chain {s : Balloon} (h : BInv s) {a b : Tid}
    (hab : Relation.TransGen s.waitsFor a b) :
    (∃ l, s.waiting a = some l) ∧
    ∀ lb, s.waiting b = some lb → ∃ la, s.waiting a = some la ∧ la.rank < lb.rank := by
  induction hab with
  | single hw =>
    obtain ⟨l, hl, hh⟩ := hw
    exact ⟨⟨l, hl⟩, fun lb hlb => ⟨l, hl, waiting_rank h hlb hh⟩⟩
  | tail _ hw ih =>
    obtain ⟨l, hl, hh⟩ := hw
    refine ⟨ih.1, fun lc hlc => ?_⟩
    obtain ⟨la, hla, hlt⟩ := ih.2 l hl
    exact ⟨la, hla, lt_trans hlt (waiting_rank h hlc hh)⟩

theorem no_wait_cycle {s : Balloon} (h : BInv s) (t : Tid) :
    ¬ Relation.TransGen s.waitsFor t t := by
  intro hc
  obtain ⟨⟨l, hl⟩, h2⟩ := waitsFor_chain h hc
  obtain ⟨la, hla, hlt⟩ := h2 l hl
  rw [hl] at hla
  cases hla
  exact lt_irrefl _ hlt

theorem P_eq (sem : Semaphore) (hpos : 0 < sem.sem_count) (hlt : sem.sem_count < UINT_MOD) :
    P sem = .done ⟨sem.sem_count - 1⟩ := by
  unfold P
  rw [if_neg (by omega), if_pos hpos]
  norm_num [UINT_MOD] at hlt ⊢
  omega

theorem lock_acquire_P_free (lk : Lock) (h : lk.lk_sem.sem_count = 1) :
    ∃ lk', lock_acquire_P lk = .done lk' := by
  have hP : P lk.lk_sem = .done ⟨lk.lk_sem.sem_count - 1⟩ :=
    P_eq _ (by omega) (by rw [h]; decide)
  exact ⟨⟨⟨lk.lk_sem.sem_count - 1⟩, lk.lk_holder⟩,
    by simp only [lock_acquire_P, hP, Outcome.andThen]⟩

theorem lock_release_V_held (lk : Lock) (h : lk.lk_sem.sem_count = 0) :
    ∃ lk', lock_release_V lk = .done lk' := by
  have h1 := lock_release_V_eq lk (by rw [h]; decide)
  rw [if_pos (by rw [h]; decide)] at h1
  exact ⟨_, h1⟩

/-- A thread that has not returned and is not blocked on a lock can take its
next step, whatever random() returns. -/
theorem enabled_of_not_waiting {s : Balloon} (h : BInv s) {t : Tid}
    (hfin : s.pc t ≠ .run .finished) (hw : s.waiting t = none) (r : Nat) :
    (bstep s t r).isSome = true := by
  unfold bstep
  cases hq : s.pc t with
  | in_acquire l n => rfl
  | in_release l n => rfl
  | run p =>
    simp only
    have ho : p.ordered := by
      have := h.ordered t
      rw [hq] at this
      exact this
    rcases act_cases (action s r p) with ⟨l, n, ha⟩ | ⟨l, n, ha⟩ | ⟨i, n, ha⟩ | ⟨n, ha⟩ |
        ⟨n, ha⟩ | ha
    · rw [ha]
      have ha0 : action s 0 p = .acquire l n := act_acquire_indep ha
      have hc : (s.getLock l).lk_sem.sem_count = 1 := by
        have hle := h.count_le l
        have hne : (s.getLock l).lk_sem.sem_count ≠ 0 := by
          intro h0
          unfold Balloon.waiting at hw
          rw [hq] at hw
          simp only [ha0, h0, if_true] at hw
          exact Option.noConfusion hw
        omega
      obtain ⟨lk, hlk⟩ := lock_acquire_P_free _ hc
      simp [Balloon.perform, hlk]
    · rw [ha]
      have hmem := (act_release ha ho).1
      have hown : s.holds t l := by
        unfold Balloon.holds
        rw [hq]
        exact hmem
      obtain ⟨lk, hlk⟩ := lock_release_V_held _ (h.owner_count t l hown)
      simp [Balloon.perform, hlk]
    · rw [ha]; rfl
    · rw [ha]; rfl
    · rcases ha with ha | ⟨m, ha⟩ | ⟨i, v, ha⟩ | ⟨e, ha⟩ <;> rw [ha] <;> rfl
    · rw [act_stop ha] at hq
      exact absurd hq hfin

theorem holder_not_finished {s : Balloon} {t : Tid} {l : LockId}
    (hh : s.holds t l) : s.pc t ≠ .run .finished := by
  intro hf
  unfold Balloon.holds at hh
  rw [hf] at hh
  simp [TPC.held, TPC.cont, BPC.held] at hh

theorem exists_running_holder {s : Balloon} (h : BInv s) :
    ∀ k : Nat, ∀ (t : Tid) (l : LockId), s.holds t l →
      NROPES + 1 - l.rank ≤ k →
      ∃ u, s.holdsAny u ∧ s.waiting u = none ∧ ∀ r, (bstep s u r).isSome = true := by
  intro k
  induction k with
  | zero =>
    intro t l hh hk
    cases hw : s.waiting t with
    | none => exact ⟨t, ⟨l, hh⟩, hw, enabled_of_not_waiting h (holder_not_finished hh) hw⟩
    | some l1 =>
      have h1 := waiting_rank h hw hh
      have h2 := rank_le l1
      omega
  | succ k ih =>
    intro t l hh hk
    cases hw : s.waiting t with
    | none => exact ⟨t, ⟨l, hh⟩, hw, enabled_of_not_waiting h (holder_not_finished hh) hw⟩
    | some l1 =>
      have h1 := waiting_rank h hw hh
      obtain ⟨u, hu⟩ := h.count_owner l1 (waiting_some hw).2
      exact ih u l1 hu (by omega)

/-- C7: in every reachable state of the scenario there is no cycle of threads
each blocked on a lock held by the next, and if some thread holds a lock then
some lock-holding thread is not blocked: it can take its next step whatever
random() returns. -/
theorem airballoon_deadlock_free (s : Balloon) (h : BReach s) :
    (∀ t, ¬ Relation.TransGen s.waitsFor t t) ∧
    ((∃ t, s.holdsAny t) →
      ∃ u, s.holdsAny u ∧ s.waiting u = none ∧ ∀ r, (bstep s u r).isSome = true) := by
  have hinv := binv_of_reach h
  refine ⟨no_wait_cycle hinv, ?_⟩
  rintro ⟨t, l, hh⟩
  exact exists_running_holder hinv _ t l hh le_rfl

/-! ## The air-balloon scenario: the rope counter -/

theorem breach_brun {s s' : Balloon} (sched : List (Tid × Nat)) (h : BReach s)
    (hrun : brun s sched = some s') : BReach s' := by
  induction sched generalizing s with
  | nil =>
    simp only [brun, Option.some.injEq] at hrun
    exact hrun ▸ h
  | cons x rest ih =>
    obtain ⟨t, r⟩ := x
    simp only [brun] at hrun
    split at hrun
    · rename_i s1 h1
      exact ih (BReach.step t r h h1) hrun
    · exact Option.noConfusion hrun

theorem breach_after {s : Balloon} (sched : List (Tid × Nat)) (h : BReach s) :
    BReach (s.after sched) := by
  unfold Balloon.after
  cases hrun : brun s sched with
  | none => exact h
  | some s' => exact breach_brun sched h hrun

theorem bsteps_brun {s s' : Balloon} (sched : List (Tid × Nat))
    (hrun : brun s sched = some s') : BSteps s s' := by
  induction sched generalizing s with
  | nil =>
    simp only [brun, Option.some.injEq] at hrun
    exact hrun ▸ BSteps.refl s
  | cons x rest ih =>
    obtain ⟨t, r⟩ := x
    simp only [brun] at hrun
    split at hrun
    · rename_i s1 h1
      exact BSteps.step t r h1 (ih hrun)
    · exact Option.noConfusion hrun

theorem bsteps_after (s : Balloon) (sched : List (Tid × Nat)) : BSteps s (s.after sched) := by
  unfold Balloon.after
  cases hrun : brun s sched with
  | none => exact BSteps.refl s
  | some s' => exact bsteps_brun sched hrun

theorem bsteps_trans {a b c : Balloon} (h1 : BSteps a b) (h2 : BSteps b c) : BSteps a c := by
  induction h1 with
  | refl _ => exact h2
  | step t r hs _ ih => exact BSteps.step t r hs (ih h2)

theorem bsteps_of_reach {s : Balloon} (h : BReach s) : BSteps Balloon.init s := by
  induction h with
  | init => exact BSteps.refl _
  | step t r _ hs ih => exact bsteps_trans ih (BSteps.step t r hs (BSteps.refl _))

theorem step_mono {s s' : Balloon} {t : Tid} {r : Nat} (hs : bstep s t r = some s') :
    s'.ropes_left ≤ s.ropes_left ∧
    ∀ k, (s.ropes k).connected = false → (s'.ropes k).connected = false := by
  cases hq : s.pc t with
  | in_acquire l n =>
    obtain ⟨_, _, hconn, hrl⟩ := bstep_in_lock (Or.inl hq) hs
    exact ⟨le_of_eq hrl, fun k hk => by rw [hconn, hk]⟩
  | in_release l n =>
    obtain ⟨_, _, hconn, hrl⟩ := bstep_in_lock (Or.inr hq) hs
    exact ⟨le_of_eq hrl, fun k hk => by rw [hconn, hk]⟩
  | run p =>
    unfold bstep at hs
    rw [hq] at hs
    simp only at hs
    rcases act_cases (action s r p) with ⟨l, n, ha⟩ | ⟨l, n, ha⟩ | ⟨i, n, ha⟩ | ⟨n, ha⟩ |
        ⟨n, ha⟩ | ha
    · rw [ha] at hs
      obtain ⟨_, _, _, _, hconn, hrl⟩ := perform_acquire hs
      exact ⟨le_of_eq hrl, fun k hk => by rw [hconn, hk]⟩
    · rw [ha] at hs
      obtain ⟨_, _, _, _, hconn, hrl⟩ := perform_release hs
      exact ⟨le_of_eq hrl, fun k hk => by rw [hconn, hk]⟩
    · rw [ha] at hs
      obtain ⟨_, _, hconn, hrl⟩ := perform_sever hs
      refine ⟨le_of_eq hrl, fun k hk => ?_⟩
      rw [hconn, hk]
      simp
    · rw [ha] at hs
      obtain ⟨_, _, hconn, hrl⟩ := perform_decrement hs
      exact ⟨by omega, fun k hk => by rw [hconn, hk]⟩
    · obtain ⟨_, _, hconn, hrl⟩ := perform_plain ha hs
      exact ⟨le_of_eq hrl, fun k hk => by rw [hconn, hk]⟩
    · rw [ha] at hs
      exact Option.noConfusion hs

theorem steps_mono {s s' : Balloon} (hs : BSteps s s') :
    s'.ropes_left ≤ s.ropes_left ∧
    ∀ k, (s.ropes k).connected = false → (s'.ropes k).connected = false := by
  induction hs with
  | refl _ => exact ⟨le_rfl, fun _ h => h⟩
  | step t r h1 _ ih =>
    obtain ⟨m1, m2⟩ := step_mono h1
    exact ⟨le_trans ih.1 m1, fun k hk => ih.2 k (m2 k hk)⟩

/-- C8, as stated, fails: after dandelion (thread 1) has printed its starting
message it is at the loop test of line 51, which reads ropes_left, and
count_lock is free (count 1, no holder): the thread does not hold it. -/
theorem ropes_left_read_without_count_lock :
    BReach (Balloon.init.after dandelion_loop_schedule) ∧
    (Balloon.init.after dandelion_loop_schedule).pc 1 = .run (.cut .dandelion .loop) ∧
    ((Balloon.init.after dandelion_loop_schedule).pc 1).accessesRopesLeft = true ∧
    LockId.count ∉ ((Balloon.init.after dandelion_loop_schedule).pc 1).held ∧
    (Balloon.init.after dandelion_loop_schedule).count_lock.lk_sem.sem_count = 1 ∧
    (Balloon.init.after dandelion_loop_schedule).count_lock.lk_holder = none ∧
    lock_do_i_hold 1 (Balloon.init.after dandelion_loop_schedule).count_lock = false :=
  ⟨breach_after _ BReach.init, by decide, by decide, by decide, by decide, by decide, by decide⟩

/-- C8, amended: in every reachable state, the statements that access ropes_left
are the decrement of the cutters and the read of the balloon, which run while the
thread, and no other, holds count_lock (its count is 0), and the loop tests of
dandelion, marigold and flowerkiller (lines 51, 91, 131), which run while the
thread holds no lock at all. -/
theorem ropes_left_locked_accesses (s : Balloon) (t : Tid) (h : BReach s) :
    (s.pc t).accessesRopesLeft = ((s.pc t).lockedAccess || (s.pc t).loopRead) ∧
    ((s.pc t).lockedAccess = true →
      s.holds t .count ∧ s.count_lock.lk_sem.sem_count = 0 ∧ ∀ u, s.holds u .count → u = t) ∧
    ((s.pc t).loopRead = true → ∀ l, ¬ s.holds t l) := by
  have hinv := binv_of_reach h
  refine ⟨?_, ?_, ?_⟩
  · rcases s.pc t with (⟨c, p⟩ | p | p | _) | ⟨l, n⟩ | ⟨l, n⟩ <;> try cases p
    all_goals rfl
  · intro hl
    have hh : s.holds t .count := lockedAccess_held hl
    exact ⟨hh, hinv.owner_count t .count hh, fun u hu => hinv.owner_unique u t .count hu hh⟩
  · intro hl l hh
    unfold Balloon.holds at hh
    rw [loopRead_held hl] at hh
    exact absurd hh (List.not_mem_nil l)

/-- Instance of ropes_left_locked_accesses: dandelion about to decrement
ropes_left holds count_lock. -/
theorem ropes_left_locked_accesses_witness :
    BReach (Balloon.init.after dandelion_sever_schedule) ∧
    ((Balloon.init.after dandelion_sever_schedule).pc 1).lockedAccess = true ∧
    (Balloon.init.after dandelion_sever_schedule).count_lock.lk_sem.sem_count = 0 :=
  ⟨breach_after _ BReach.init, by decide,
    ((ropes_left_locked_accesses _ 1 (breach_after _ BReach.init)).2.1 (by decide)).2.1⟩

/-- C9: the driver starts with ropes_left = NROPES and every rope connected.
In every reachable state ropes_left is between 0 and NROPES; along every
execution from a reachable state ropes_left does not increase and a connected
flag that is false stays false; whenever count_lock is not held (no thread holds
it, equivalently its count is 1) ropes_left is the number of connected ropes;
and once the balloon has read ropes_left = 0 every rope is disconnected. -/
theorem ropes_left_monotone_bounded (s s' : Balloon) (h : BReach s) (hs : BSteps s s') :
    Balloon.init.ropes_left = NROPES ∧
    (∀ k, (Balloon.init.ropes k).connected = true) ∧
    0 ≤ s.ropes_left ∧ s.ropes_left ≤ NROPES ∧
    s'.ropes_left ≤ s.ropes_left ∧
    (∀ k, (s.ropes k).connected = false → (s'.ropes k).connected = false) ∧
    ((∀ t, ¬ s.holds t .count) → s.ropes_left = s.connectedCount) ∧
    (s.count_lock.lk_sem.sem_count = 1 → s.ropes_left = s.connectedCount) ∧
    (∀ t, (s.pc t).cont.sawZero = true → ∀ k, (s.ropes k).connected = false) := by
  have hinv := binv_of_reach h
  have hm := steps_mono hs
  have hfree : (∀ t, ¬ s.holds t .count) → s.ropes_left = s.connectedCount := by
    intro hno
    refine hinv.count_idle (fun u => ?_)
    by_contra hc
    exact hno u (inFlight_held (by simpa using hc))
  refine ⟨rfl, fun _ => rfl, ?_, (steps_mono (bsteps_of_reach h)).1, hm.1, hm.2, hfree, ?_, ?_⟩
  · by_cases hf : ∃ u, (s.pc u).cont.inFlight = true
    · obtain ⟨u, hu⟩ := hf
      rw [hinv.count_flight u hu]
      omega
    · rw [hinv.count_idle (fun u => by
        by_contra hc
        exact hf ⟨u, by simpa using hc⟩)]
      omega
  · intro h1
    refine hfree (fun t ht => ?_)
    have h0 : s.count_lock.lk_sem.sem_count = 0 := hinv.owner_count t .count ht
    omega
  · intro t ht k
    exact cc_zero (hinv.zero_seen t ht) k

/-- Instance of ropes_left_monotone_bounded: from the initial state, dandelion
severs rope 5; ropes_left has not increased. -/
theorem ropes_left_monotone_bounded_witness :
    BReach Balloon.init ∧
    BSteps Balloon.init (Balloon.init.after dandelion_sever_schedule) ∧
    (Balloon.init.after dandelion_sever_schedule).ropes_left ≤ Balloon.init.ropes_left ∧
    ((Balloon.init.after dandelion_sever_schedule).ropes (draw 5)).connected = false :=
  ⟨BReach.init, bsteps_after _ _,
    (ropes_left_monotone_bounded _ _ BReach.init (bsteps_after _ _)).2.2.2.2.1, by decide⟩

/-- Instance of airballoon_deadlock_free: while dandelion holds count_lock and
a rope lock, it is not part of a cycle of waiting threads. -/
theorem airballoon_deadlock_free_witness :
    BReach (Balloon.init.after dandelion_sever_schedule) ∧
    LockId.count ∈ ((Balloon.init.after dandelion_sever_schedule).pc 1).held ∧
    ¬ Relation.TransGen (Balloon.init.after dandelion_sever_schedule).waitsFor 1 1 :=
  ⟨breach_after _ BReach.init, by decide,
    (airballoon_deadlock_free _ (breach_after _ BReach.init)).1 1⟩

/-! ## The air-balloon scenario: lock order in flowerkiller -/

/-- A step of thread t from a statement of its function moves t to the position
that follows the statement and leaves the other threads where they are. -/
theorem bstep_run_pc {s s' : Balloon} {t : Tid} {r : Nat} {p : BPC} (hq : s.pc t = .run p)
    (hs : bstep s t r = some s') :
    ∃ q n, (action s r p).next = some n ∧ q.cont = n ∧ s'.pc = Function.update s.pc t q := by
  unfold bstep at hs
  rw [hq] at hs
  simp only at hs
  rcases act_cases (action s r p) with ⟨l, n, ha⟩ | ⟨l, n, ha⟩ | ⟨i, n, ha⟩ | ⟨n, ha⟩ |
      ⟨n, ha⟩ | ha
  · rw [ha] at hs ⊢
    obtain ⟨_, _, hpc, _⟩ := perform_acquire hs
    exact ⟨.in_acquire l n, n, rfl, rfl, hpc⟩
  · rw [ha] at hs ⊢
    obtain ⟨_, _, hpc, _⟩ := perform_release hs
    exact ⟨.in_release l n, n, rfl, rfl, hpc⟩
  · rw [ha] at hs ⊢
    exact ⟨.run n, n, rfl, rfl, (perform_sever hs).1⟩
  · rw [ha] at hs ⊢
    exact ⟨.run n, n, rfl, rfl, (perform_decrement hs).1⟩
  · refine ⟨.run n, n, ?_, rfl, (perform_plain ha hs).1⟩
    rcases ha with ha | ⟨m, ha⟩ | ⟨i, v, ha⟩ | ⟨e, ha⟩ <;> rw [ha] <;> rfl
  · rw [ha] at hs
    exact Option.noConfusion hs

theorem bstep_pc_update {s s' : Balloon} {t : Tid} {r : Nat} (hs : bstep s t r = some s') :
    ∃ q, s'.pc = Function.update s.pc t q := by
  cases hq : s.pc t with
  | run p =>
    obtain ⟨q, _, _, _, hpc⟩ := bstep_run_pc hq hs
    exact ⟨q, hpc⟩
  | in_acquire l n => exact ⟨_, (bstep_in_lock (Or.inl hq) hs).1⟩
  | in_release l n => exact ⟨_, (bstep_in_lock (Or.inr hq) hs).1⟩

theorem fk_iter_step {s : Balloon} {r : Nat} {p : FkPC} {n : BPC} (hin : p.inIter = true)
    (hne : p ≠ .loop) (hn : (flowerkiller s r p).next = some n) :
    ∃ p', n = .fk p' ∧ p'.inIter = true ∧
      ∀ b', ∃ b, (flowerkiller s r p).lockEv ++ p'.rest b' = p.rest b := by
  cases p <;> simp only [FkPC.inIter, Bool.false_eq_true] at hin <;>
    simp only [flowerkiller, Act.next, Option.some.injEq] at hn <;> subst hn
  case loop => exact absurd rfl hne
  case same i j =>
    by_cases hij : i = j
    · exact ⟨.loop, by rw [if_pos hij], rfl,
        fun b' => ⟨b', by simp [FkPC.rest, Act.lockEv, flowerkiller, hij]⟩⟩
    · exact ⟨.order i j, by rw [if_neg hij], rfl,
        fun b' => ⟨b', by simp [FkPC.rest, Act.lockEv, flowerkiller, hij]⟩⟩
  case order i j =>
    by_cases hij : i > j
    · refine ⟨.acq_lo j i, by rw [if_pos hij], rfl, fun b' => ⟨b', ?_⟩⟩
      simp [FkPC.rest, Act.lockEv, flowerkiller, min_eq_right (le_of_lt hij),
        max_eq_left (le_of_lt hij)]
    · refine ⟨.acq_lo i j, by rw [if_neg hij], rfl, fun b' => ⟨b', ?_⟩⟩
      simp [FkPC.rest, Act.lockEv, flowerkiller, min_eq_left (not_lt.mp hij),
        max_eq_right (not_lt.mp hij)]
  case test i j =>
    by_cases hc : ((s.ropes i).connected && (s.ropes j).connected) = true
    · exact ⟨.swap1 i j, by rw [if_pos hc], rfl,
        fun b' => ⟨true, by simp [FkPC.rest, Act.lockEv, flowerkiller, printSection]⟩⟩
    · exact ⟨.rel_lo i j, by rw [if_neg hc], rfl,
        fun b' => ⟨false, by simp [FkPC.rest, Act.lockEv, flowerkiller, printSection]⟩⟩
  all_goals exact ⟨_, rfl, rfl, fun b' => ⟨b', by simp [FkPC.rest, Act.lockEv, flowerkiller]⟩⟩

theorem own_iter_step {s s' : Balloon} {t : Tid} {r : Nat} {p : FkPC}
    (hc : (s.pc t).cont = .fk p) (hin : p.inIter = true) (hne : s.pc t ≠ .run (.fk .loop))
    (hs : bstep s t r = some s') :
    ∃ p', (s'.pc t).cont = .fk p' ∧ p'.inIter = true ∧
      ∀ b', ∃ b, s.lockEv t r ++ p'.rest b' = p.rest b := by
  cases hq : s.pc t with
  | run p0 =>
    rw [hq] at hc
    simp only [TPC.cont] at hc
    subst hc
    obtain ⟨q, n, hn, hqn, hpc⟩ := bstep_run_pc hq hs
    have hne' : p ≠ .loop := by
      rintro rfl
      exact hne hq
    obtain ⟨p', rfl, hin', hrest⟩ := fk_iter_step hin hne' hn
    refine ⟨p', by rw [hpc, Function.update_same, hqn], hin', fun b' => ?_⟩
    obtain ⟨b, hb⟩ := hrest b'
    refine ⟨b, ?_⟩
    unfold Balloon.lockEv
    rw [hq]
    exact hb
  | in_acquire l n =>
    rw [hq] at hc
    simp only [TPC.cont] at hc
    subst hc
    obtain ⟨hpc, _⟩ := bstep_in_lock (Or.inl hq) hs
    refine ⟨p, by rw [hpc, Function.update_same]; rfl, hin, fun b' => ⟨b', ?_⟩⟩
    unfold Balloon.lockEv
    rw [hq]
    rfl
  | in_release l n =>
    rw [hq] at hc
    simp only [TPC.cont] at hc
    subst hc
    obtain ⟨hpc, _⟩ := bstep_in_lock (Or.inr hq) hs
    refine ⟨p, by rw [hpc, Function.update_same]; rfl, hin, fun b' => ⟨b', ?_⟩⟩
    unfold Balloon.lockEv
    rw [hq]
    rfl

theorem iterRun_events {s s' : Balloon} {t : Tid} {evs : List LockEv}
    (hrun : IterRun t s evs s') :
    ∀ p, (s.pc t).cont = .fk p → p.inIter = true → ∃ b, evs = p.rest b := by
  induction hrun with
  | done hpc =>
    intro p hp _
    rw [hpc] at hp
    cases hp
    exact ⟨true, rfl⟩
  | own r hne hs _ ih =>
    intro p hp hin
    obtain ⟨p', hp', hin', hrest⟩ := own_iter_step hp hin hne hs
    obtain ⟨b', hb'⟩ := ih p' hp' hin'
    obtain ⟨b, hb⟩ := hrest b'
    exact ⟨b, by rw [hb']; exact hb⟩
  | other u r _ hut hs _ ih =>
    intro p hp hin
    obtain ⟨q, hpc⟩ := bstep_pc_update hs
    exact ih p (by rw [hpc, Function.update_noteq (Ne.symm hut), hp]) hin

/-- C6: thread t is at line 138 of flowerkiller with the draws i and j.  In
every execution of the system up to the next time t is at the loop test, the
lock operations of t are: none at all when i = j; otherwise lock_acquire on rope
min(i, j), then on rope max(i, j), with min(i, j) < max(i, j), then possibly the
print section, then lock_release on both ropes; these four are its only
operations on rope locks. -/
theorem flowerkiller_ascending_order (s s' : Balloon) (t : Tid) (i j : RopeIx)
    (evs : List LockEv) (hpc : s.pc t = .run (.fk (.same i j))) (hrun : IterRun t s evs s') :
    (i = j → evs = []) ∧
    (i ≠ j →
      min i j < max i j ∧
      evs.filter LockEv.onRope =
        [.acquire (.rope (min i j)), .acquire (.rope (max i j)),
         .release (.rope (min i j)), .release (.rope (max i j))] ∧
      ∃ both, evs = [.acquire (.rope (min i j)), .acquire (.rope (max i j))] ++
        printSection both ++ [.release (.rope (min i j)), .release (.rope (max i j))]) := by
  obtain ⟨b, hb⟩ := iterRun_events hrun (.same i j) (by rw [hpc]; rfl) rfl
  refine ⟨?_, ?_⟩
  · intro hij
    rw [hb]
    simp [FkPC.rest, hij]
  · intro hij
    have hev : evs = [.acquire (.rope (min i j)), .acquire (.rope (max i j))] ++
        printSection b ++ [.release (.rope (min i j)), .release (.rope (max i j))] := by
      rw [hb]
      simp [FkPC.rest, hij]
    refine ⟨?_, ?_, b, hev⟩
    · rcases lt_or_gt_of_ne hij with h1 | h1
      · rw [min_eq_left (le_of_lt h1), max_eq_right (le_of_lt h1)]
        exact h1
      · rw [min_eq_right (le_of_lt h1), max_eq_left (le_of_lt h1)]
        exact h1
    · rw [hev]
      cases b <;> simp [printSection, LockEv.onRope]

theorem flowerkiller_body_run :
    IterRun 2 (Balloon.init.after flowerkiller_draws_schedule)
      [.acquire (.rope (draw 1)), .acquire (.rope (draw 3)), .acquire .print, .release .print,
       .release (.rope (draw 1)), .release (.rope (draw 3))]
      ((Balloon.init.after flowerkiller_draws_schedule).after flowerkiller_body_schedule) :=
  IterRun.own 0 (by decide) rfl <| IterRun.own 0 (by decide) rfl <|
  IterRun.own 0 (by decide) rfl <| IterRun.own 0 (by decide) rfl <|
  IterRun.own 0 (by decide) rfl <| IterRun.own 0 (by decide) rfl <|
  IterRun.own 0 (by decide) rfl <| IterRun.own 0 (by decide) rfl <|
  IterRun.own 0 (by decide) rfl <| IterRun.own 0 (by decide) rfl <|
  IterRun.own 0 (by decide) rfl <| IterRun.own 0 (by decide) rfl <|
  IterRun.own 0 (by decide) rfl <| IterRun.own 0 (by decide) rfl <|
  IterRun.own 0 (by decide) rfl <| IterRun.own 0 (by decide) rfl <|
  IterRun.own 0 (by decide) rfl <| IterRun.own 0 (by decide) rfl <|
  IterRun.own 0 (by decide) rfl <| IterRun.own 0 (by decide) rfl <|
  IterRun.own 0 (by decide) rfl <|
  IterRun.done (by decide)

/-- Instance of flowerkiller_ascending_order: the first flowerkiller draws
i = 3 and j = 1 and runs its loop body alone; it locks rope 1 before rope 3. -/
theorem flowerkiller_ascending_order_witness :
    (Balloon.init.after flowerkiller_draws_schedule).pc 2 =
      .run (.fk (.same (draw 3) (draw 1))) ∧
    IterRun 2 (Balloon.init.after flowerkiller_draws_schedule)
      [.acquire (.rope (draw 1)), .acquire (.rope (draw 3)), .acquire .print, .release .print,
       .release (.rope (draw 1)), .release (.rope (draw 3))]
      ((Balloon.init.after flowerkiller_draws_schedule).after flowerkiller_body_schedule) ∧
    draw 3 ≠ draw 1 ∧
    min (draw 3) (draw 1) < max (draw 3) (draw 1) :=
  ⟨by decide, flowerkiller_body_run, by decide,
    ((flowerkiller_ascending_order _ _ 2 (draw 3) (draw 1) _ (by decide)
      flowerkiller_body_run).2 (by decide)).1⟩

end OS161
